import Mathlib

/-!
Verification of the Web-Search-MCP orchestration core.

This file is a shallow embedding, in Lean 4, of the parts of the repository
that the specification's claims talk about:

* `rate-limiter.js` — the request-rate governor (`RateLimiter.execute`);
* `browser-pool.js` — the pooled browser resource manager
  (`BrowserPool.getBrowser`, insertion-ordered eviction);
* `search-engine.js` — the orchestrator (`SearchEngine.search`), the quality
  scorer (`assessResultQuality`), the engine result parsing routines
  (`parseSearchResults`, `parseBraveResults`, `parseBingResults`,
  `parseDuckDuckGoResults`) and the per-engine URL normalization routines
  (`cleanGoogleUrl`, `cleanBraveUrl`, `cleanBingUrl`, `cleanDuckDuckGoUrl`).

Conventions of the embedding:

* JavaScript numbers used as counters and timestamps are modelled as `Nat`
  (all are non-negative integers in the source); quality scores, which the
  source manipulates as decimal numbers, are modelled as `ℚ`.
* Asynchronous, effectful code is modelled by explicit state passing; the
  cooperative event-loop interleaving relevant to the rate limiter is
  modelled by splitting `execute` into its synchronous prefix and the
  deferred task body and by an explicit event scheduler.
* HTML parsing by the external `cheerio` library is abstracted: an element
  produced by a selector query is represented by a record holding exactly
  the fields the source code reads from it (selector-match texts and href
  attributes).  Everything the repository's own code does with those fields
  is translated faithfully.
* External JS built-ins used by the repository (`URLSearchParams`,
  `decodeURIComponent`, base64 `Buffer` decoding, UTF-8) are implemented
  here following their standard documented behaviour.
-/

/- ## Basic string machinery -/

/-- Test whether `p` is an initial segment of `s` (character lists). -/
def listLeads : List Char → List Char → Bool
  | [], _ => true
  | _ :: _, [] => false
  | p :: ps, c :: cs => p == c && listLeads ps cs

/-- `strStarts s p` is `true` when the string `s` starts with `p`
(JS `String.prototype.startsWith`). -/
def strStarts (s p : String) : Bool := listLeads p.toList s.toList

/-- Substring search on character lists (JS `String.prototype.includes`). -/
def strContainsChars : List Char → List Char → Bool
  | _, [] => true
  | [], _ :: _ => false
  | c :: t, p :: ps => listLeads (p :: ps) (c :: t) || strContainsChars t (p :: ps)

/-- `strContains s p`: the string `s` contains `p` as a substring. -/
def strContains (s p : String) : Bool := strContainsChars s.toList p.toList

/-- Characters the JS regex class `\w` matches (ASCII letters, digits, `_`). -/
def isWordChar (c : Char) : Bool := c.isAlphanum || c == '_'

/-- Split a character list into the maximal runs of `\w` characters.
This models `s.replace(/[^\w\s]/g, ' ').split(/\s+/)` followed by dropping
empty tokens: after the replacement the string holds only word characters
and whitespace, so splitting on whitespace runs yields exactly the maximal
word-character runs (empty tokens are removed downstream by the length
filter in the source). -/
def wordRunsAux : List Char → List Char → List String
  | [], acc => if acc.isEmpty then [] else [String.mk acc.reverse]
  | c :: rest, acc =>
    if isWordChar c then wordRunsAux rest (c :: acc)
    else if acc.isEmpty then wordRunsAux rest []
    else String.mk acc.reverse :: wordRunsAux rest []

def wordRuns (s : List Char) : List String := wordRunsAux s []

/-- Case folding (JS `toLowerCase`), character by character. -/
def strLower (s : String) : String := String.mk (s.toList.map Char.toLower)

/-- The whitespace characters relevant to JS `trim` and `\s` (ASCII). -/
def jsIsSpace (c : Char) : Bool :=
  c == ' ' || c == '\t' || c == '\n' || c == '\r' ||
  c == Char.ofNat 11 || c == Char.ofNat 12

/-- JS `String.prototype.trim`. -/
def strTrim (s : String) : String :=
  String.mk (((s.toList.dropWhile jsIsSpace).reverse.dropWhile
    jsIsSpace).reverse)

def splitOnCharAux (sep : Char) : List Char → List Char → List (List Char)
  | [], acc => [acc.reverse]
  | c :: rest, acc =>
    if c == sep then acc.reverse :: splitOnCharAux sep rest []
    else splitOnCharAux sep rest (c :: acc)

/-- Split at every occurrence of a separator character (JS
`String.prototype.split` with a one-character separator). -/
def splitOnChar (sep : Char) (l : List Char) : List (List Char) :=
  splitOnCharAux sep l []

/- ## RateLimiter (src/dist/rate-limiter.js) -/

/-- Mutable fields of the `RateLimiter` class that `execute` touches:
`requestCount` and `lastResetTime` (`maxRequestsPerMinute` is fixed at
construction and passed as a parameter below). -/
structure RLState where
  requestCount : Nat
  lastResetTime : Nat
deriving DecidableEq, Repr

/-- `resetIntervalMs = 60000` (one minute), rate-limiter.js line 7. -/
def resetIntervalMs : Nat := 60000

/-- The synchronous prefix of `RateLimiter.execute` (rate-limiter.js lines
13-23): reset the window counter if the window has elapsed, then check the
quota.  Returns the state after the reset check together with `some
waitTime` when the call throws the rate-limit error (the thrown message
carries `Math.ceil(waitTime / 1000)` seconds; we carry `waitTime` itself,
in milliseconds), and `none` when the call passes the check and enqueues
its task. -/
def executeSync (st : RLState) (now maxReq : Nat) : RLState × Option Nat :=
  let st' := if now - st.lastResetTime ≥ resetIntervalMs then ⟨0, now⟩ else st
  if st'.requestCount ≥ maxReq then
    (st', some (resetIntervalMs - (now - st'.lastResetTime)))
  else (st', none)

/-- The body the source hands to the concurrency limiter (rate-limiter.js
line 26): `this.requestCount++` runs when the task is dispatched, before
`fn()` starts. -/
def dispatchIncrement (st : RLState) : RLState :=
  ⟨st.requestCount + 1, st.lastResetTime⟩

/-- One `execute` call under sequential (awaited) use: the synchronous
check followed immediately by the task dispatch.  Second component is
`some waitTime` on rejection, `none` when the task was dispatched. -/
def executeAtomic (st : RLState) (now maxReq : Nat) : RLState × Option Nat :=
  match executeSync st now maxReq with
  | (st', some w) => (st', some w)
  | (st', none) => (dispatchIncrement st', none)

/-- Run a sequence of sequential `execute` calls at the given times;
returns the final limiter state and the number of dispatched tasks. -/
def runExec (st : RLState) (ts : List Nat) (maxReq : Nat) : RLState × Nat :=
  match ts with
  | [] => (st, 0)
  | t :: rest =>
    match executeAtomic st t maxReq with
    | (st', some _) => runExec st' rest maxReq
    | (st', none) => ((runExec st' rest maxReq).1, (runExec st' rest maxReq).2 + 1)

/-- Event-loop interleaving of concurrent `execute` callers.  A `submit`
event is one caller running the synchronous prefix of `execute` in its
tick; passing callers are queued by the concurrency limiter (`p-limit`
defers running the task body to a later microtask).  A `dispatch` event is
the limiter starting the head queued task, which is when the counter
increment on line 26 actually runs. -/
inductive RLEvent
  | submit (id now : Nat)
  | dispatch
deriving DecidableEq, Repr

structure RLSys where
  rl : RLState
  pending : List Nat
  dispatched : List Nat
  rejected : List Nat
deriving DecidableEq, Repr

def rlSysStep (maxReq : Nat) (sys : RLSys) : RLEvent → RLSys
  | .submit id now =>
    match executeSync sys.rl now maxReq with
    | (st', some _) => { sys with rl := st', rejected := sys.rejected ++ [id] }
    | (st', none) => { sys with rl := st', pending := sys.pending ++ [id] }
  | .dispatch =>
    match sys.pending with
    | [] => sys
    | id :: rest =>
      { sys with rl := dispatchIncrement sys.rl, pending := rest,
                 dispatched := sys.dispatched ++ [id] }

def rlSysRun (maxReq : Nat) (sys : RLSys) : List RLEvent → RLSys
  | [] => sys
  | e :: es => rlSysRun maxReq (rlSysStep maxReq sys e) es

def rlSysInit : RLSys := ⟨⟨0, 0⟩, [], [], []⟩

/- ## RateLimiter lemmas -/

lemma executeAtomic_in_window_lt (c t0 t maxReq : Nat)
    (hlt : t - t0 < resetIntervalMs) (hc : c < maxReq) :
    executeAtomic ⟨c, t0⟩ t maxReq = (⟨c + 1, t0⟩, none) := by
  simp [executeAtomic, executeSync, dispatchIncrement, Nat.not_le.mpr hlt,
    Nat.not_le.mpr hc]

lemma executeAtomic_in_window_full (c t0 t maxReq : Nat)
    (hlt : t - t0 < resetIntervalMs) (hc : maxReq ≤ c) :
    executeAtomic ⟨c, t0⟩ t maxReq
      = (⟨c, t0⟩, some (resetIntervalMs - (t - t0))) := by
  simp [executeAtomic, executeSync, Nat.not_le.mpr hlt, hc]

lemma runExec_window (ts : List Nat) :
    ∀ (c t0 maxReq : Nat), (∀ t ∈ ts, t - t0 < resetIntervalMs) →
      (runExec ⟨c, t0⟩ ts maxReq).1 = ⟨c + (runExec ⟨c, t0⟩ ts maxReq).2, t0⟩ ∧
      (c < maxReq → c + (runExec ⟨c, t0⟩ ts maxReq).2 ≤ maxReq) ∧
      (maxReq ≤ c → (runExec ⟨c, t0⟩ ts maxReq).2 = 0) := by
  induction ts with
  | nil => intro c t0 maxReq _; simp [runExec]; omega
  | cons t rest ih =>
    intro c t0 maxReq h
    have ht : t - t0 < resetIntervalMs := h t (by simp)
    have hrest : ∀ t' ∈ rest, t' - t0 < resetIntervalMs :=
      fun t' ht' => h t' (by simp [ht'])
    by_cases hc : c < maxReq
    · have hstep := executeAtomic_in_window_lt c t0 t maxReq ht hc
      have ihr := ih (c + 1) t0 maxReq hrest
      simp only [runExec, hstep]
      refine ⟨by rw [ihr.1]; congr 1; omega, fun _ => ?_, fun hge => ?_⟩
      · rcases Nat.lt_or_ge (c + 1) maxReq with h1 | h1
        · have := ihr.2.1 h1; omega
        · have := ihr.2.2 h1; omega
      · omega
    · have hge : maxReq ≤ c := Nat.not_lt.mp hc
      have hstep := executeAtomic_in_window_full c t0 t maxReq ht hge
      have ihr := ih c t0 maxReq hrest
      simp only [runExec, hstep]
      exact ⟨ihr.1, fun hlt' => absurd hlt' hc, fun _ => ihr.2.2 hge⟩

lemma runExec_all_ok (ts : List Nat) :
    ∀ (c t0 maxReq : Nat), (∀ t ∈ ts, t - t0 < resetIntervalMs) →
      c + ts.length ≤ maxReq →
      runExec ⟨c, t0⟩ ts maxReq = (⟨c + ts.length, t0⟩, ts.length) := by
  induction ts with
  | nil => intro c t0 maxReq _ _; simp [runExec]
  | cons t rest ih =>
    intro c t0 maxReq h hlen
    have ht : t - t0 < resetIntervalMs := h t (by simp)
    have hrest : ∀ t' ∈ rest, t' - t0 < resetIntervalMs :=
      fun t' ht' => h t' (by simp [ht'])
    have hc : c < maxReq := by simp at hlen; omega
    have hstep := executeAtomic_in_window_lt c t0 t maxReq ht hc
    have ihr := ih (c + 1) t0 maxReq hrest (by simp at hlen ⊢; omega)
    simp only [runExec, hstep, ihr]
    simp only [Prod.mk.injEq, RLState.mk.injEq, List.length_cons, and_true]
    omega

/-- C5: sequential calls to `RateLimiter.execute` inside one window run the
task only while the window has remaining quota.  (1) Starting a fresh
window at `t0`, `maxReq` submissions inside the window all dispatch, and
the `(maxReq + 1)`-th submission fails immediately with the rate-limit
error carrying the wait time until the next window,
`resetIntervalMs - (tN - t0)`; (2) once `resetIntervalMs` (60 s) has
elapsed since the window start, the counter is reset to zero and a new
task succeeds (final count 1, new window start `now`); (3) within a
window the counter is never decremented. -/
theorem rate_limiter_window_contract :
    (∀ (t0 maxReq : Nat) (ts : List Nat),
      1 ≤ maxReq → ts.length = maxReq →
      (∀ t ∈ ts, t - t0 < resetIntervalMs) →
      (runExec ⟨0, t0⟩ ts maxReq).2 = maxReq ∧
      (∀ tN, tN - t0 < resetIntervalMs →
        executeAtomic (runExec ⟨0, t0⟩ ts maxReq).1 tN maxReq
          = (⟨maxReq, t0⟩, some (resetIntervalMs - (tN - t0))))) ∧
    (∀ (st : RLState) (now maxReq : Nat),
      resetIntervalMs ≤ now - st.lastResetTime → 1 ≤ maxReq →
      executeAtomic st now maxReq = (⟨1, now⟩, none)) ∧
    (∀ (st : RLState) (now maxReq : Nat),
      now - st.lastResetTime < resetIntervalMs →
      st.requestCount ≤ (executeAtomic st now maxReq).1.requestCount) := by
  refine ⟨?_, ?_, ?_⟩
  · intro t0 maxReq ts h1 hlen h
    have hall := runExec_all_ok ts 0 t0 maxReq h (by omega)
    rw [hlen] at hall
    simp only [Nat.zero_add] at hall
    refine ⟨by rw [hall], fun tN htN => ?_⟩
    rw [hall]
    exact executeAtomic_in_window_full maxReq t0 tN maxReq htN le_rfl
  · intro st now maxReq hel hmax
    simp [executeAtomic, executeSync, dispatchIncrement, hel, Nat.not_le.mpr hmax]
  · intro st now maxReq hlt
    simp only [executeAtomic, executeSync, Nat.not_le.mpr hlt, if_false]
    by_cases hc : st.requestCount ≥ maxReq <;>
      simp [hc, dispatchIncrement]

/-- Witness for `rate_limiter_window_contract` at concrete inputs:
`maxReq = 2`, window start `0`, submissions at `10` and `20`, a third
submission at `30` (rejected with 59 970 ms wait) and one at `60000`
(fresh window, succeeds). -/
theorem rate_limiter_window_contract_witness :
    ((1 : Nat) ≤ 2 ∧ ([10, 20] : List Nat).length = 2 ∧
      (∀ t ∈ ([10, 20] : List Nat), t - 0 < resetIntervalMs)) ∧
    (runExec ⟨0, 0⟩ [10, 20] 2).2 = 2 ∧
    executeAtomic (runExec ⟨0, 0⟩ [10, 20] 2).1 30 2
      = (⟨2, 0⟩, some (resetIntervalMs - (30 - 0))) ∧
    executeAtomic (⟨2, 0⟩ : RLState) 60000 2 = (⟨1, 60000⟩, none) ∧
    (⟨2, 0⟩ : RLState).requestCount
      ≤ (executeAtomic ⟨2, 0⟩ 30 2).1.requestCount :=
  ⟨⟨by decide, by decide, by decide⟩,
   (rate_limiter_window_contract.1 0 2 [10, 20] (by decide) (by decide)
      (by decide)).1,
   (rate_limiter_window_contract.1 0 2 [10, 20] (by decide) (by decide)
      (by decide)).2 30 (by decide),
   rate_limiter_window_contract.2.1 ⟨2, 0⟩ 60000 2 (by decide) (by decide),
   rate_limiter_window_contract.2.2 ⟨2, 0⟩ 30 2 (by decide)⟩

/-- C3 counterexample: with `maxRequestsPerMinute = 1`, two callers invoke
`execute` in the same event-loop tick.  Both run the synchronous quota
check while `requestCount` is still `0` (the increment on line 26 runs
only in the later microtask in which the concurrency limiter starts the
task), so both tasks are dispatched: two dispatches in one window with a
quota of one, and neither submission was rejected. -/
theorem rate_limiter_interleaving_exceeds_quota_cex :
    (rlSysRun 1 rlSysInit
        [.submit 0 0, .submit 1 0, .dispatch, .dispatch]).dispatched.length = 2 ∧
    2 > 1 ∧
    (rlSysRun 1 rlSysInit
        [.submit 0 0, .submit 1 0, .dispatch, .dispatch]).rejected = [] ∧
    (rlSysRun 1 rlSysInit
        [.submit 0 0, .submit 1 0, .dispatch, .dispatch]).rl.lastResetTime = 0 := by
  decide

/-- C3 (amended): the window counter is incremented inside the
concurrency-limited task, after the synchronous quota check and after a
suspension point, so concurrent callers that all pass the check before any
of them increments can dispatch more than `maxRequestsPerMinute` tasks in
one window (see the counterexample).  What does hold is the serialized
guarantee: when each `execute` call completes (check plus increment)
before the next call's check runs, at most `maxRequestsPerMinute` tasks
are dispatched within one window. -/
theorem rate_limiter_serialized_quota_bound
    (t0 maxReq : Nat) (ts : List Nat)
    (h : ∀ t ∈ ts, t - t0 < resetIntervalMs) :
    (runExec ⟨0, t0⟩ ts maxReq).2 ≤ maxReq := by
  rcases Nat.eq_zero_or_pos maxReq with h0 | hpos
  · subst h0
    have := (runExec_window ts 0 t0 0 h).2.2 le_rfl
    omega
  · have := (runExec_window ts 0 t0 maxReq h).2.1 hpos
    omega

/-- Witness for `rate_limiter_serialized_quota_bound`: three serialized
submissions inside one window with a quota of two dispatch at most two. -/
theorem rate_limiter_serialized_quota_bound_witness :
    (∀ t ∈ ([5, 6, 7] : List Nat), t - 0 < resetIntervalMs) ∧
    (runExec ⟨0, 0⟩ [5, 6, 7] 2).2 ≤ 2 :=
  ⟨by decide, rate_limiter_serialized_quota_bound 0 2 [5, 6, 7] (by decide)⟩

/- ## JS built-ins used by URL normalization -/

def hexVal (c : Char) : Option Nat :=
  if '0' ≤ c ∧ c ≤ '9' then some (c.toNat - '0'.toNat)
  else if 'a' ≤ c ∧ c ≤ 'f' then some (c.toNat - 'a'.toNat + 10)
  else if 'A' ≤ c ∧ c ≤ 'F' then some (c.toNat - 'A'.toNat + 10)
  else none

/-- UTF-8 encoding of one code point. -/
def utf8EncodeChar (c : Char) : List Nat :=
  let n := c.toNat
  if n < 0x80 then [n]
  else if n < 0x800 then [0xC0 + n / 64, 0x80 + n % 64]
  else if n < 0x10000 then
    [0xE0 + n / 4096, 0x80 + (n / 64) % 64, 0x80 + n % 64]
  else
    [0xF0 + n / 262144, 0x80 + (n / 4096) % 64, 0x80 + (n / 64) % 64,
     0x80 + n % 64]

/-- Strict percent-decoding to a byte sequence (`decodeURIComponent`
behaviour: a `%` not followed by two hex digits throws, modelled as
`none`). -/
def percentBytesStrict : List Char → Option (List Nat)
  | [] => some []
  | '%' :: h1 :: h2 :: rest =>
    match hexVal h1, hexVal h2 with
    | some a, some b => (percentBytesStrict rest).map (fun bs => (a * 16 + b) :: bs)
    | _, _ => none
  | c :: rest =>
    if c == '%' then none
    else (percentBytesStrict rest).map (fun bs => utf8EncodeChar c ++ bs)

/-- Lenient percent-decoding (`URLSearchParams` behaviour: a malformed `%`
sequence is kept literally). -/
def percentBytesLenient : List Char → List Nat
  | [] => []
  | '%' :: h1 :: h2 :: rest =>
    match hexVal h1, hexVal h2 with
    | some a, some b => (a * 16 + b) :: percentBytesLenient rest
    | _, _ => utf8EncodeChar '%' ++ percentBytesLenient (h1 :: h2 :: rest)
  | c :: rest => utf8EncodeChar c ++ percentBytesLenient rest

/-- Strict UTF-8 decoding (`decodeURIComponent` throws on malformed byte
sequences, modelled as `none`). -/
def utf8DecodeStrict : List Nat → Option (List Char)
  | [] => some []
  | b :: rest =>
    if b < 0x80 then (utf8DecodeStrict rest).map (fun cs => Char.ofNat b :: cs)
    else if b < 0xC2 then none
    else if b < 0xE0 then
      match rest with
      | c1 :: rest1 =>
        if 0x80 ≤ c1 ∧ c1 < 0xC0 then
          (utf8DecodeStrict rest1).map
            (fun cs => Char.ofNat ((b - 0xC0) * 64 + (c1 - 0x80)) :: cs)
        else none
      | [] => none
    else if b < 0xF0 then
      match rest with
      | c1 :: c2 :: rest2 =>
        if 0x80 ≤ c1 ∧ c1 < 0xC0 ∧ 0x80 ≤ c2 ∧ c2 < 0xC0 then
          let cp := (b - 0xE0) * 4096 + (c1 - 0x80) * 64 + (c2 - 0x80)
          if 0x800 ≤ cp ∧ ¬(0xD800 ≤ cp ∧ cp ≤ 0xDFFF) then
            (utf8DecodeStrict rest2).map (fun cs => Char.ofNat cp :: cs)
          else none
        else none
      | _ => none
    else if b < 0xF5 then
      match rest with
      | c1 :: c2 :: c3 :: rest3 =>
        if 0x80 ≤ c1 ∧ c1 < 0xC0 ∧ 0x80 ≤ c2 ∧ c2 < 0xC0 ∧
            0x80 ≤ c3 ∧ c3 < 0xC0 then
          let cp := (b - 0xF0) * 262144 + (c1 - 0x80) * 4096 +
            (c2 - 0x80) * 64 + (c3 - 0x80)
          if 0x10000 ≤ cp ∧ cp ≤ 0x10FFFF then
            (utf8DecodeStrict rest3).map (fun cs => Char.ofNat cp :: cs)
          else none
        else none
      | _ => none
    else none

/-- Lenient UTF-8 decoding (replacement character on malformed input, as
`URLSearchParams` and `Buffer.toString('utf-8')` do).  The fuel argument
(initialized to the byte count, each step consumes at least one byte) only
serves termination. -/
def utf8DecodeLenientAux : Nat → List Nat → List Char
  | 0, _ => []
  | _, [] => []
  | fuel + 1, b :: rest =>
    if b < 0x80 then Char.ofNat b :: utf8DecodeLenientAux fuel rest
    else if b < 0xC2 then '\uFFFD' :: utf8DecodeLenientAux fuel rest
    else if b < 0xE0 then
      match rest with
      | c1 :: rest1 =>
        if 0x80 ≤ c1 ∧ c1 < 0xC0 then
          Char.ofNat ((b - 0xC0) * 64 + (c1 - 0x80)) ::
            utf8DecodeLenientAux fuel rest1
        else '\uFFFD' :: utf8DecodeLenientAux fuel rest
      | [] => ['\uFFFD']
    else if b < 0xF0 then
      match rest with
      | c1 :: c2 :: rest2 =>
        if 0x80 ≤ c1 ∧ c1 < 0xC0 ∧ 0x80 ≤ c2 ∧ c2 < 0xC0 then
          let cp := (b - 0xE0) * 4096 + (c1 - 0x80) * 64 + (c2 - 0x80)
          if 0x800 ≤ cp ∧ ¬(0xD800 ≤ cp ∧ cp ≤ 0xDFFF) then
            Char.ofNat cp :: utf8DecodeLenientAux fuel rest2
          else '\uFFFD' :: utf8DecodeLenientAux fuel rest
        else '\uFFFD' :: utf8DecodeLenientAux fuel rest
      | _ => '\uFFFD' :: utf8DecodeLenientAux fuel rest
    else if b < 0xF5 then
      match rest with
      | c1 :: c2 :: c3 :: rest3 =>
        if 0x80 ≤ c1 ∧ c1 < 0xC0 ∧ 0x80 ≤ c2 ∧ c2 < 0xC0 ∧
            0x80 ≤ c3 ∧ c3 < 0xC0 then
          let cp := (b - 0xF0) * 262144 + (c1 - 0x80) * 4096 +
            (c2 - 0x80) * 64 + (c3 - 0x80)
          if 0x10000 ≤ cp ∧ cp ≤ 0x10FFFF then
            Char.ofNat cp :: utf8DecodeLenientAux fuel rest3
          else '\uFFFD' :: utf8DecodeLenientAux fuel rest
        else '\uFFFD' :: utf8DecodeLenientAux fuel rest
      | _ => '\uFFFD' :: utf8DecodeLenientAux fuel rest
    else '\uFFFD' :: utf8DecodeLenientAux fuel rest

def utf8DecodeLenient (bs : List Nat) : List Char :=
  utf8DecodeLenientAux bs.length bs

/-- JS `decodeURIComponent`: `none` models a thrown `URIError`. -/
def decodeURIComponent (s : String) : Option String :=
  (percentBytesStrict s.toList).bind
    (fun bs => (utf8DecodeStrict bs).map (fun cs => String.mk cs))

/-- `application/x-www-form-urlencoded` component decoding used by
`URLSearchParams`: `+` means space, then lenient percent decoding. -/
def formDecode (s : List Char) : String :=
  String.mk (utf8DecodeLenient (percentBytesLenient
    (s.map (fun c => if c == '+' then ' ' else c))))

/-- Split a parameter piece at its first `=`. -/
def splitFirstEq : List Char → List Char × List Char
  | [] => ([], [])
  | c :: rest =>
    if c == '=' then ([], rest)
    else
      let (k, v) := splitFirstEq rest
      (c :: k, v)

/-- `new URLSearchParams(s)`: split on `&`, drop empty pieces, split each
piece at its first `=`, form-decode names and values. -/
def parseSearchParams (s : String) : List (String × String) :=
  (splitOnChar '&' s.toList).filterMap (fun piece =>
    if piece.isEmpty then none
    else
      let kv := splitFirstEq piece
      some (formDecode kv.1, formDecode kv.2))

/-- `URLSearchParams.get`: first value for the name, `none` for JS `null`. -/
def searchParamsGet (ps : List (String × String)) (k : String) : Option String :=
  (ps.find? (fun p => p.1 == k)).map (fun p => p.2)

/-- Node's forgiving base64 alphabet (standard plus URL-safe `-` `_`). -/
def base64Val (c : Char) : Option Nat :=
  if 'A' ≤ c ∧ c ≤ 'Z' then some (c.toNat - 'A'.toNat)
  else if 'a' ≤ c ∧ c ≤ 'z' then some (c.toNat - 'a'.toNat + 26)
  else if '0' ≤ c ∧ c ≤ '9' then some (c.toNat - '0'.toNat + 52)
  else if c == '+' ∨ c == '-' then some 62
  else if c == '/' ∨ c == '_' then some 63
  else none

def base64Groups : List Nat → List Nat
  | a :: b :: c :: d :: rest =>
    (a * 4 + b / 16) :: ((b % 16) * 16 + c / 4) :: ((c % 4) * 64 + d) ::
      base64Groups rest
  | [a, b] => [a * 4 + b / 16]
  | [a, b, c] => [a * 4 + b / 16, (b % 16) * 16 + c / 4]
  | _ => []

/-- `Buffer.from(s, 'base64').toString('utf-8')`: non-alphabet characters
(including `=` padding) are ignored, 6-bit groups are reassembled, and the
bytes are decoded as UTF-8 with replacement characters (never throws). -/
def base64DecodeString (s : String) : String :=
  String.mk (utf8DecodeLenient (base64Groups (s.toList.filterMap base64Val)))

/- ## URL validity and per-engine URL normalization (search-engine.js) -/

/-- A decoded, absolute, scheme-qualified address in the sense of the data
model: the URL names its scheme explicitly (`validateUrl` in utils.js
likewise accepts exactly `http:`/`https:`). -/
def isSchemeQualified (u : String) : Bool :=
  strStarts u "http://" || strStarts u "https://"

/-- `isValidSearchUrl` (search-engine.js lines 807-817). -/
def isValidSearchUrl (url : String) : Bool :=
  strStarts url "/url?" || strStarts url "http://" || strStarts url "https://" ||
  strStarts url "//" || strStarts url "/search?" || strStarts url "/" ||
  strContains url "google.com" || url.length > 10

/-- The `/url?` redirect extraction inside `cleanGoogleUrl` (lines
820-831): `urlParams.get('q') || urlParams.get('url')`, with JS falsiness
(a missing or empty parameter falls through), returned only when the
result is truthy. -/
def googleRedirectTarget (url : String) : Option String :=
  let ps := parseSearchParams (String.mk (url.toList.drop 5))
  let act := match searchParamsGet ps "q" with
    | some s => if s = "" then searchParamsGet ps "url" else some s
    | none => searchParamsGet ps "url"
  match act with
  | some s => if s = "" then none else some s
  | none => none

/-- `cleanGoogleUrl` (search-engine.js lines 818-837). -/
def cleanGoogleUrl (url : String) : String :=
  match (if strStarts url "/url?" then googleRedirectTarget url else none) with
  | some t => t
  | none => if strStarts url "//" then "https:" ++ url else url

/-- `cleanBraveUrl` (search-engine.js lines 838-848). -/
def cleanBraveUrl (url : String) : String :=
  if strStarts url "//" then "https:" ++ url
  else if isSchemeQualified url then url
  else url

def bingWrapperCheck (url : String) : Bool :=
  strContains url "bing.com/ck/a?" || strContains url "bing.com/ck/a&"

/-- The leftmost match of the regex `[?&]u=a1([^&]+)` (capture group):
scan for `?u=a1` or `&u=a1` followed by at least one non-`&` character;
the capture is the maximal run of non-`&` characters after `u=a1`. -/
def bingUMatchChars : List Char → Option (List Char)
  | [] => none
  | c :: rest =>
    if (c == '?' || c == '&') && listLeads ['u', '=', 'a', '1'] rest then
      match rest.drop 4 with
      | [] => bingUMatchChars rest
      | d :: ds =>
        if d == '&' then bingUMatchChars rest
        else some ((d :: ds).takeWhile (fun x => x ≠ '&'))
    else bingUMatchChars rest

def bingUMatch (url : String) : Option String :=
  (bingUMatchChars url.toList).map String.mk

/-- The redirect-decoding block of `cleanBingUrl` (lines 851-884):
extract the `u=a1...` capture, URL-decode it (a throw falls through),
repair base64 padding to a multiple of four, base64-decode, and accept the
decoded text only when it is scheme-qualified. -/
def bingRedirectTarget (url : String) : Option String :=
  if bingWrapperCheck url then
    match bingUMatch url with
    | some enc =>
      match decodeURIComponent enc with
      | some enc' =>
        let padding := 4 - enc'.length % 4
        let padded := if padding ≠ 4 then
            enc' ++ String.mk (List.replicate padding '=') else enc'
        let decoded := base64DecodeString padded
        if isSchemeQualified decoded then some decoded else none
      | none => none
    | none => none
  else none

/-- `cleanBingUrl` (search-engine.js lines 849-895). -/
def cleanBingUrl (url : String) : String :=
  match bingRedirectTarget url with
  | some t => t
  | none =>
    if strStarts url "//" then "https:" ++ url
    else if isSchemeQualified url then url
    else url

/-- The `uddg` extraction of `cleanDuckDuckGoUrl` (lines 898-913):
`url.substring(url.indexOf('?') + 1)` (the whole string when there is no
`?`), then `URLSearchParams.get('uddg')` with a truthiness check, then
`decodeURIComponent` (a throw falls through, modelled as `none`). -/
def ddgRedirectTarget (url : String) : Option String :=
  let qs := match url.toList.findIdx? (fun c => c == '?') with
    | some i => String.mk (url.toList.drop (i + 1))
    | none => url
  match searchParamsGet (parseSearchParams qs) "uddg" with
  | some s => if s = "" then none else decodeURIComponent s
  | none => none

/-- `cleanDuckDuckGoUrl` (search-engine.js lines 896-919). -/
def cleanDuckDuckGoUrl (url : String) : String :=
  match (if strStarts url "//duckduckgo.com/l/" then ddgRedirectTarget url
         else none) with
  | some t => t
  | none => if strStarts url "//" then "https:" ++ url else url

/- ## Prefix and substring lemmas -/

lemma listLeads_iff (ps : List Char) :
    ∀ s, listLeads ps s = true ↔ ∃ t, s = ps ++ t := by
  induction ps with
  | nil => intro s; simp [listLeads]
  | cons p ps ih =>
    intro s
    cases s with
    | nil => simp [listLeads]
    | cons c cs =>
      simp only [listLeads, Bool.and_eq_true, beq_iff_eq, ih, List.cons_append,
        List.cons.injEq]
      constructor
      · rintro ⟨rfl, t, rfl⟩; exact ⟨t, rfl, rfl⟩
      · rintro ⟨t, rfl, rfl⟩; exact ⟨rfl, t, rfl⟩

lemma listLeads_head_ne {p0 c : Char} (ps cs : List Char) (h : p0 ≠ c) :
    listLeads (p0 :: ps) (c :: cs) = false := by
  simp [listLeads, h]

lemma toList_https_append (u : String) :
    ("https:" ++ u).toList = 'h' :: 't' :: 't' :: 'p' :: 's' :: ':' :: u.toList := by
  cases u with
  | mk l => rfl

lemma strStarts_https_append_sq (u : String) (h : strStarts u "//" = true) :
    isSchemeQualified ("https:" ++ u) = true := by
  obtain ⟨t, ht⟩ := (listLeads_iff _ _).mp h
  simp only [isSchemeQualified, strStarts, toList_https_append, ht]
  simp [listLeads]

lemma sq_toList (u : String) (h : isSchemeQualified u = true) :
    (∃ t, u.toList = "http://".toList ++ t) ∨
    (∃ t, u.toList = "https://".toList ++ t) := by
  simp only [isSchemeQualified, Bool.or_eq_true, strStarts] at h
  rcases h with h | h
  · exact Or.inl ((listLeads_iff _ _).mp h)
  · exact Or.inr ((listLeads_iff _ _).mp h)

lemma sq_head_h (u : String) (h : isSchemeQualified u = true) :
    ∃ t, u.toList = 'h' :: t := by
  rcases sq_toList u h with ⟨t, ht⟩ | ⟨t, ht⟩
  · exact ⟨_, ht⟩
  · exact ⟨_, ht⟩

lemma sq_not_starts_slash (u : String) (h : isSchemeQualified u = true)
    (p : String) (hp : ∃ ps, p.toList = '/' :: ps) : strStarts u p = false := by
  obtain ⟨t, ht⟩ := sq_head_h u h
  obtain ⟨ps, hps⟩ := hp
  simp only [strStarts, ht, hps]
  exact listLeads_head_ne ps t (by decide)

/- ## Behaviour of the clean functions on scheme-qualified inputs -/

lemma clean_google_sq (u : String) (h : isSchemeQualified u = true) :
    cleanGoogleUrl u = u := by
  have h1 := sq_not_starts_slash u h "/url?" ⟨_, rfl⟩
  have h2 := sq_not_starts_slash u h "//" ⟨_, rfl⟩
  simp [cleanGoogleUrl, h1, h2]

lemma clean_brave_sq (u : String) (h : isSchemeQualified u = true) :
    cleanBraveUrl u = u := by
  have h2 := sq_not_starts_slash u h "//" ⟨_, rfl⟩
  simp [cleanBraveUrl, h2, h]

lemma clean_ddg_sq (u : String) (h : isSchemeQualified u = true) :
    cleanDuckDuckGoUrl u = u := by
  have h1 := sq_not_starts_slash u h "//duckduckgo.com/l/" ⟨_, rfl⟩
  have h2 := sq_not_starts_slash u h "//" ⟨_, rfl⟩
  simp [cleanDuckDuckGoUrl, h1, h2]

lemma bingRedirectTarget_sq (u t : String) (h : bingRedirectTarget u = some t) :
    isSchemeQualified t = true := by
  unfold bingRedirectTarget at h
  dsimp only at h
  repeat' split at h
  all_goals first
    | (injection h with h'; subst h'; assumption)
    | cases h

lemma clean_bing_sq_no_wrapper (t : String) (hsq : isSchemeQualified t = true)
    (hw : bingWrapperCheck t = false) : cleanBingUrl t = t := by
  have hnone : bingRedirectTarget t = none := by
    unfold bingRedirectTarget
    simp [hw]
  have h2 := sq_not_starts_slash t hsq "//" ⟨_, rfl⟩
  simp [cleanBingUrl, hnone, h2, hsq]

lemma clean_bing_sq (u : String) (h : isSchemeQualified u = true) :
    isSchemeQualified (cleanBingUrl u) = true := by
  unfold cleanBingUrl
  cases ht : bingRedirectTarget u with
  | some t => exact bingRedirectTarget_sq u t ht
  | none =>
    have h2 := sq_not_starts_slash u h "//" ⟨_, rfl⟩
    simp [h2, h]

/- ## Prepending `https:` does not change the Bing wrapper analysis -/

lemma strContainsChars_cons_ne (c : Char) (t : List Char) (p0 : Char)
    (ps : List Char) (h : p0 ≠ c) :
    strContainsChars (c :: t) (p0 :: ps) = strContainsChars t (p0 :: ps) := by
  simp [strContainsChars, listLeads_head_ne ps t h]

lemma strContainsChars_https_prepend (l : List Char) (p0 : Char)
    (ps : List Char) (hh : p0 ≠ 'h') (ht : p0 ≠ 't') (hp : p0 ≠ 'p')
    (hs : p0 ≠ 's') (hc : p0 ≠ ':') :
    strContainsChars ('h' :: 't' :: 't' :: 'p' :: 's' :: ':' :: l) (p0 :: ps)
      = strContainsChars l (p0 :: ps) := by
  rw [strContainsChars_cons_ne _ _ _ _ hh, strContainsChars_cons_ne _ _ _ _ ht,
    strContainsChars_cons_ne _ _ _ _ ht, strContainsChars_cons_ne _ _ _ _ hp,
    strContainsChars_cons_ne _ _ _ _ hs, strContainsChars_cons_ne _ _ _ _ hc]

lemma bingWrapperCheck_https_append (u : String) :
    bingWrapperCheck ("https:" ++ u) = bingWrapperCheck u := by
  unfold bingWrapperCheck strContains
  rw [toList_https_append]
  rw [show ("bing.com/ck/a?" : String).toList = 'b' :: "ing.com/ck/a?".toList
      from rfl]
  rw [show ("bing.com/ck/a&" : String).toList = 'b' :: "ing.com/ck/a&".toList
      from rfl]
  rw [strContainsChars_https_prepend _ _ _ (by decide) (by decide) (by decide)
    (by decide) (by decide)]
  rw [strContainsChars_https_prepend _ _ _ (by decide) (by decide) (by decide)
    (by decide) (by decide)]

lemma bingUMatchChars_cons_skip (c : Char) (rest : List Char)
    (h1 : c ≠ '?') (h2 : c ≠ '&') :
    bingUMatchChars (c :: rest) = bingUMatchChars rest := by
  simp [bingUMatchChars, h1, h2]

lemma bingUMatch_https_append (u : String) :
    bingUMatch ("https:" ++ u) = bingUMatch u := by
  unfold bingUMatch
  rw [toList_https_append]
  rw [bingUMatchChars_cons_skip _ _ (by decide) (by decide),
    bingUMatchChars_cons_skip _ _ (by decide) (by decide),
    bingUMatchChars_cons_skip _ _ (by decide) (by decide),
    bingUMatchChars_cons_skip _ _ (by decide) (by decide),
    bingUMatchChars_cons_skip _ _ (by decide) (by decide),
    bingUMatchChars_cons_skip _ _ (by decide) (by decide)]

lemma bingRedirectTarget_https_append (u : String) :
    bingRedirectTarget ("https:" ++ u) = bingRedirectTarget u := by
  unfold bingRedirectTarget
  rw [bingWrapperCheck_https_append, bingUMatch_https_append]

/- ## Wrapped URL forms -/

/-- The wrapped URL forms of the Google link scheme: a `/url?` redirect
whose extracted payload is a scheme-qualified address, a protocol-relative
URL, or an already scheme-qualified address. -/
def googleWrappedForm (u : String) : Bool :=
  (strStarts u "/url?" && (match googleRedirectTarget u with
     | some t => isSchemeQualified t
     | none => false)) ||
  strStarts u "//" || isSchemeQualified u

/-- The wrapped URL forms of the Bing link scheme: every URL except the
pathological nested case in which the decoded redirect payload is itself
another `bing.com/ck/a` wrapper. -/
def bingWrappedForm (u : String) : Bool :=
  match bingRedirectTarget u with
  | some t => !bingWrapperCheck t
  | none => true

/-- The wrapped URL forms of the DuckDuckGo link scheme: a
`//duckduckgo.com/l/` redirect whose `uddg` payload either decodes to a
scheme-qualified address or fails to decode, a protocol-relative URL, or
an already scheme-qualified address. -/
def ddgWrappedForm (u : String) : Bool :=
  (strStarts u "//duckduckgo.com/l/" && (match ddgRedirectTarget u with
     | some d => isSchemeQualified d
     | none => true)) ||
  (strStarts u "//" && !strStarts u "//duckduckgo.com/l/") ||
  isSchemeQualified u

lemma starts_dslash_not_url (u : String) (h : strStarts u "//" = true) :
    strStarts u "/url?" = false := by
  obtain ⟨t, ht⟩ := (listLeads_iff _ _).mp h
  simp only [strStarts, ht]
  simp [listLeads]

lemma starts_dslash_https_append_not_dslash (u : String) :
    strStarts ("https:" ++ u) "//" = false := by
  simp only [strStarts, toList_https_append]
  exact listLeads_head_ne _ _ (by decide)

lemma starts_https_append_not_ddg (u : String) :
    strStarts ("https:" ++ u) "//duckduckgo.com/l/" = false := by
  simp only [strStarts, toList_https_append]
  exact listLeads_head_ne _ _ (by decide)

/-- C9: each engine's URL normalization function (`cleanGoogleUrl`,
`cleanBingUrl`, `cleanDuckDuckGoUrl`) is idempotent on wrapped URL forms:
for every URL `u` of the engine's wrapped form (redirect wrapper with a
decodable scheme-qualified target, protocol-relative URL, or plain
scheme-qualified URL), `normalize (normalize u) = normalize u`. -/
theorem clean_url_idempotent_on_wrapped_forms (u : String) :
    (googleWrappedForm u = true →
      cleanGoogleUrl (cleanGoogleUrl u) = cleanGoogleUrl u) ∧
    (bingWrappedForm u = true →
      cleanBingUrl (cleanBingUrl u) = cleanBingUrl u) ∧
    (ddgWrappedForm u = true →
      cleanDuckDuckGoUrl (cleanDuckDuckGoUrl u) = cleanDuckDuckGoUrl u) := by
  refine ⟨?_, ?_, ?_⟩
  · intro h
    simp only [googleWrappedForm, Bool.or_eq_true, Bool.and_eq_true] at h
    rcases h with (⟨hstart, htgt⟩ | hds) | hsq
    · cases ht : googleRedirectTarget u with
      | none => rw [ht] at htgt; simp at htgt
      | some t =>
        rw [ht] at htgt
        have hclean : cleanGoogleUrl u = t := by
          simp [cleanGoogleUrl, hstart, ht]
        rw [hclean]
        exact clean_google_sq t htgt
    · have hnu : strStarts u "/url?" = false := starts_dslash_not_url u hds
      have hclean : cleanGoogleUrl u = "https:" ++ u := by
        simp [cleanGoogleUrl, hnu, hds]
      rw [hclean]
      exact clean_google_sq _ (strStarts_https_append_sq u hds)
    · rw [clean_google_sq u hsq]; exact clean_google_sq u hsq
  · intro h
    unfold bingWrappedForm at h
    cases ht : bingRedirectTarget u with
    | some t =>
      rw [ht] at h
      simp only [Bool.not_eq_true'] at h
      have hsq := bingRedirectTarget_sq u t ht
      have hclean : cleanBingUrl u = t := by simp [cleanBingUrl, ht]
      rw [hclean]
      exact clean_bing_sq_no_wrapper t hsq h
    | none =>
      by_cases hds : strStarts u "//" = true
      · have hclean : cleanBingUrl u = "https:" ++ u := by
          simp [cleanBingUrl, ht, hds]
        rw [hclean]
        have hrt := bingRedirectTarget_https_append u
        rw [ht] at hrt
        have h2 := starts_dslash_https_append_not_dslash u
        have hsq := strStarts_https_append_sq u hds
        simp [cleanBingUrl, hrt, h2, hsq]
      · have hclean : cleanBingUrl u = u := by
          simp [cleanBingUrl, ht, hds]
        rw [hclean, hclean]
  · intro h
    simp only [ddgWrappedForm, Bool.or_eq_true, Bool.and_eq_true] at h
    rcases h with (⟨hstart, htgt⟩ | ⟨hds, hnw⟩) | hsq
    · cases ht : ddgRedirectTarget u with
      | some d =>
        rw [ht] at htgt
        have hclean : cleanDuckDuckGoUrl u = d := by
          simp [cleanDuckDuckGoUrl, hstart, ht]
        rw [hclean]
        exact clean_ddg_sq d htgt
      | none =>
        have hds : strStarts u "//" = true := by
          obtain ⟨t, hts⟩ := (listLeads_iff _ _).mp hstart
          simp only [strStarts, hts]
          simp [listLeads]
        have hclean : cleanDuckDuckGoUrl u = "https:" ++ u := by
          simp [cleanDuckDuckGoUrl, hstart, ht, hds]
        rw [hclean]
        exact clean_ddg_sq _ (strStarts_https_append_sq u hds)
    · simp only [Bool.not_eq_true'] at hnw
      have hclean : cleanDuckDuckGoUrl u = "https:" ++ u := by
        simp [cleanDuckDuckGoUrl, hnw, hds]
      rw [hclean]
      exact clean_ddg_sq _ (strStarts_https_append_sq u hds)
    · rw [clean_ddg_sq u hsq]; exact clean_ddg_sq u hsq

/-- Witness for `clean_url_idempotent_on_wrapped_forms` at the
protocol-relative wrapped form `//example.com` (a wrapped form for all
three engines). -/
theorem clean_url_idempotent_on_wrapped_forms_witness :
    (googleWrappedForm "//example.com" = true ∧
      cleanGoogleUrl (cleanGoogleUrl "//example.com")
        = cleanGoogleUrl "//example.com") ∧
    (bingWrappedForm "//example.com" = true ∧
      cleanBingUrl (cleanBingUrl "//example.com")
        = cleanBingUrl "//example.com") ∧
    (ddgWrappedForm "//example.com" = true ∧
      cleanDuckDuckGoUrl (cleanDuckDuckGoUrl "//example.com")
        = cleanDuckDuckGoUrl "//example.com") :=
  ⟨⟨by decide,
    (clean_url_idempotent_on_wrapped_forms "//example.com").1 (by decide)⟩,
   ⟨by decide,
    (clean_url_idempotent_on_wrapped_forms "//example.com").2.1 (by decide)⟩,
   ⟨by decide,
    (clean_url_idempotent_on_wrapped_forms "//example.com").2.2 (by decide)⟩⟩

/-- C2 (amended): the parsers do not guarantee a scheme-qualified `url`
for arbitrary markup (see the counterexample: a relative raw href passes
through unchanged).  What the normalization functions do guarantee: a
scheme-qualified raw href is preserved (Bing may replace it by the decoded
redirect target, which is again scheme-qualified), and a protocol-relative
raw href (outside DuckDuckGo's own wrapper namespace) is completed to a
scheme-qualified `https:` address. -/
theorem clean_urls_scheme_preserving (u : String) :
    (isSchemeQualified u = true →
      cleanGoogleUrl u = u ∧ cleanBraveUrl u = u ∧
      isSchemeQualified (cleanBingUrl u) = true ∧
      cleanDuckDuckGoUrl u = u) ∧
    (strStarts u "//" = true →
      isSchemeQualified (cleanGoogleUrl u) = true ∧
      isSchemeQualified (cleanBraveUrl u) = true ∧
      isSchemeQualified (cleanBingUrl u) = true ∧
      (strStarts u "//duckduckgo.com/l/" = false →
        isSchemeQualified (cleanDuckDuckGoUrl u) = true)) := by
  constructor
  · intro h
    exact ⟨clean_google_sq u h, clean_brave_sq u h, clean_bing_sq u h,
      clean_ddg_sq u h⟩
  · intro hds
    refine ⟨?_, ?_, ?_, ?_⟩
    · have hnu := starts_dslash_not_url u hds
      have hc : cleanGoogleUrl u = "https:" ++ u := by
        simp [cleanGoogleUrl, hnu, hds]
      rw [hc]; exact strStarts_https_append_sq u hds
    · have hc : cleanBraveUrl u = "https:" ++ u := by simp [cleanBraveUrl, hds]
      rw [hc]; exact strStarts_https_append_sq u hds
    · cases ht : bingRedirectTarget u with
      | some t =>
        have hc : cleanBingUrl u = t := by simp [cleanBingUrl, ht]
        rw [hc]; exact bingRedirectTarget_sq u t ht
      | none =>
        have hc : cleanBingUrl u = "https:" ++ u := by
          simp [cleanBingUrl, ht, hds]
        rw [hc]; exact strStarts_https_append_sq u hds
    · intro hnw
      have hc : cleanDuckDuckGoUrl u = "https:" ++ u := by
        simp [cleanDuckDuckGoUrl, hnw, hds]
      rw [hc]; exact strStarts_https_append_sq u hds

/-- Witness for `clean_urls_scheme_preserving` at `https://example.com`
(scheme-qualified raw href) and `//example.com` (protocol-relative raw
href). -/
theorem clean_urls_scheme_preserving_witness :
    (isSchemeQualified "https://example.com" = true ∧
      (cleanGoogleUrl "https://example.com" = "https://example.com" ∧
       cleanBraveUrl "https://example.com" = "https://example.com" ∧
       isSchemeQualified (cleanBingUrl "https://example.com") = true ∧
       cleanDuckDuckGoUrl "https://example.com" = "https://example.com")) ∧
    (strStarts "//example.com" "//" = true ∧
      strStarts "//example.com" "//duckduckgo.com/l/" = false ∧
      isSchemeQualified (cleanGoogleUrl "//example.com") = true ∧
      isSchemeQualified (cleanBraveUrl "//example.com") = true ∧
      isSchemeQualified (cleanBingUrl "//example.com") = true ∧
      isSchemeQualified (cleanDuckDuckGoUrl "//example.com") = true) :=
  ⟨⟨by decide,
    (clean_urls_scheme_preserving "https://example.com").1 (by decide)⟩,
   ⟨by decide, by decide,
    ((clean_urls_scheme_preserving "//example.com").2 (by decide)).1,
    ((clean_urls_scheme_preserving "//example.com").2 (by decide)).2.1,
    ((clean_urls_scheme_preserving "//example.com").2 (by decide)).2.2.1,
    ((clean_urls_scheme_preserving "//example.com").2 (by decide)).2.2.2
      (by decide)⟩⟩

/- ## SearchResult (types) and the quality scorer -/

inductive FetchStatus
  | success
  | error
  | timeout
deriving DecidableEq, Repr

/-- The `SearchResult` record created by the engine parsing routines
(types.d.ts; fields as pushed by search-engine.js). -/
structure SearchResult where
  title : String
  url : String
  description : String
  fullContent : String
  contentPreview : String
  wordCount : Nat
  timestamp : String
  fetchStatus : FetchStatus
deriving DecidableEq, Repr

/-- The stop-word set `commonWords` (search-engine.js line 924). -/
def commonWords : List String :=
  ["the", "a", "an", "and", "or", "but", "in", "on", "at", "to", "for",
   "of", "with", "by", "is", "are", "was", "were", "be", "been", "have",
   "has", "had", "do", "does", "did", "will", "would", "could", "should",
   "may", "might", "must", "can", "group", "members"]

/-- Query keyword extraction (lines 925-928): lower-case, replace
non-word-characters by spaces, split on whitespace, keep words of length
greater than two that are not stop words. -/
def queryWords (q : String) : List String :=
  (wordRuns (strLower q).toList).filter
    (fun w => w.length > 2 && !(commonWords.contains w))

def adjacentBigrams : List String → List String
  | a :: b :: rest => (a ++ " " ++ b) :: adjacentBigrams (b :: rest)
  | _ => []

/-- The phrase list (lines 943-950): every adjacent bigram, plus the
trigram of the first three keywords when there are at least three. -/
def queryPhrases (ws : List String) : List String :=
  if ws.length ≥ 2 then
    adjacentBigrams ws ++
      (if ws.length ≥ 3 then [String.intercalate " " (ws.take 3)] else [])
  else []

/-- `${title} ${description} ${url}`, case-folded (lines 935-938). -/
def resultCombinedText (r : SearchResult) : String :=
  strLower r.title ++ " " ++ strLower r.description ++ " " ++ strLower r.url

/-- How many of the given patterns occur in the text. -/
def countContained (text : String) (pats : List String) : Nat :=
  (pats.filter (fun p => strContains text p)).length

/-- The off-topic patterns (lines 968-978); all are case-insensitive
substring tests, listed lower-case since the combined text is already
lower-case. -/
def irrelevantPatterns : List String :=
  ["recipe", "cooking", "food", "restaurant", "menu",
   "weather", "temperature", "forecast",
   "shopping", "sale", "price", "buy", "store",
   "movie", "film", "tv show", "entertainment",
   "sports", "game", "score", "team",
   "fashion", "clothing", "style",
   "travel", "hotel", "flight", "vacation",
   "car", "vehicle", "automotive",
   "real estate", "property", "house", "apartment"]

/-- `Math.min` and `Math.max` on rationals, written as explicit
conditionals so that each is computable by kernel reduction; they agree
with the lattice operations (`ratMin_eq`, `ratMax_eq`). -/
def ratMin (a b : ℚ) : ℚ := if a ≤ b then a else b

def ratMax (a b : ℚ) : ℚ := if a ≤ b then b else a

lemma ratMin_eq (a b : ℚ) : ratMin a b = min a b := (min_def a b).symm

lemma ratMax_eq (a b : ℚ) : ratMax a b = max a b := (max_def a b).symm

/-- Per-result score (lines 934-988): hit ratio plus `0.3` per matched
phrase, capped at `1`, minus `0.2` per matched off-topic pattern, floored
at `0`. -/
def resultQualityScore (ws : List String) (r : SearchResult) : ℚ :=
  let text := resultCombinedText r
  let keywordMatches := countContained text ws
  let phraseMatches := countContained text (queryPhrases ws)
  let keywordRatio : ℚ := (keywordMatches : ℚ) / (ws.length : ℚ)
  let resultScore := ratMin 1 (keywordRatio + (phraseMatches : ℚ) * (3 / 10))
  let penalty : ℚ := (countContained text irrelevantPatterns : ℚ) * (1 / 5)
  ratMax 0 (resultScore - penalty)

/-- `assessResultQuality` (search-engine.js lines 920-992), with the
accumulation loop modelled by the same left fold over the result list. -/
def assessResultQuality (results : List SearchResult) (originalQuery : String) :
    ℚ :=
  if results.isEmpty then 0
  else
    let ws := queryWords originalQuery
    if ws.isEmpty then 1 / 2
    else
      let acc := results.foldl
        (fun (acc : ℚ × Nat) r => (acc.1 + resultQualityScore ws r, acc.2 + 1))
        (0, 0)
      if acc.2 > 0 then acc.1 / (acc.2 : ℚ) else 0

/-- Reference definition of the quality score, following the claim: `0`
for an empty result set, the neutral `1/2` when no query terms survive
stop-word removal, otherwise the arithmetic mean over all results of
`max 0 (min 1 (hitRatio + 0.3·phraseMatches) − 0.2·patternMatches)`. -/
def refAssessQuality (results : List SearchResult) (q : String) : ℚ :=
  if results.isEmpty then 0
  else if (queryWords q).isEmpty then 1 / 2
  else (results.map (resultQualityScore (queryWords q))).sum /
    (results.length : ℚ)

/- ## Quality scorer lemmas -/

lemma assess_foldl (ws : List String) (l : List SearchResult) :
    ∀ (t : ℚ) (c : Nat),
      l.foldl
        (fun (acc : ℚ × Nat) r => (acc.1 + resultQualityScore ws r, acc.2 + 1))
        (t, c)
      = (t + (l.map (resultQualityScore ws)).sum, c + l.length) := by
  induction l with
  | nil => intro t c; simp
  | cons r rest ih =>
    intro t c
    simp only [List.foldl_cons, List.map_cons, List.sum_cons, List.length_cons,
      ih, Prod.mk.injEq]
    constructor
    · ring
    · omega

lemma clamp_nonneg (x p : ℚ) : 0 ≤ ratMax 0 (ratMin 1 x - p) := by
  rw [ratMax_eq]; exact le_max_left _ _

lemma clamp_le_one (x p : ℚ) (hp : 0 ≤ p) : ratMax 0 (ratMin 1 x - p) ≤ 1 := by
  rw [ratMax_eq, ratMin_eq]
  apply max_le
  · norm_num
  · have := min_le_left 1 x
    linarith

lemma resultQualityScore_nonneg (ws : List String) (r : SearchResult) :
    0 ≤ resultQualityScore ws r := clamp_nonneg _ _

lemma resultQualityScore_le_one (ws : List String) (r : SearchResult) :
    resultQualityScore ws r ≤ 1 := by
  unfold resultQualityScore
  exact clamp_le_one _ _ (by positivity)

lemma refAssess_range (results : List SearchResult) (q : String) :
    0 ≤ refAssessQuality results q ∧ refAssessQuality results q ≤ 1 := by
  unfold refAssessQuality
  split
  · norm_num
  · split
    · norm_num
    · rename_i hne _
      have hlen : 0 < (results.length : ℚ) := by
        cases results with
        | nil => simp at hne
        | cons a l => exact_mod_cast Nat.succ_pos l.length
      constructor
      · apply div_nonneg _ (le_of_lt hlen)
        apply List.sum_nonneg
        intro x hx
        obtain ⟨r, _, rfl⟩ := List.mem_map.mp hx
        exact resultQualityScore_nonneg _ _
      · rw [div_le_one hlen]
        calc (results.map (resultQualityScore (queryWords q))).sum
            ≤ (results.map (resultQualityScore (queryWords q))).length • (1 : ℚ) :=
              List.sum_le_card_nsmul _ _ (by
                intro x hx
                obtain ⟨r, _, rfl⟩ := List.mem_map.mp hx
                exact resultQualityScore_le_one _ _)
          _ = (results.length : ℚ) := by simp [nsmul_eq_mul]

lemma assess_eq_ref (results : List SearchResult) (q : String) :
    assessResultQuality results q = refAssessQuality results q := by
  unfold assessResultQuality refAssessQuality
  cases hre : results.isEmpty
  · simp only [Bool.false_eq_true, if_false]
    cases hws : (queryWords q).isEmpty
    · simp only [Bool.false_eq_true, if_false, assess_foldl, Nat.zero_add,
        zero_add]
      have hlen : 0 < results.length := by
        cases results with
        | nil => simp at hre
        | cons a l => simp
      simp [hlen]
    · simp
  · simp

lemma assess_nonneg (results : List SearchResult) (q : String) :
    0 ≤ assessResultQuality results q := by
  rw [assess_eq_ref]; exact (refAssess_range results q).1

lemma assess_le_one (results : List SearchResult) (q : String) :
    assessResultQuality results q ≤ 1 := by
  rw [assess_eq_ref]; exact (refAssess_range results q).2

lemma assess_nil (q : String) : assessResultQuality [] q = 0 := by
  simp [assessResultQuality]

/-- C4: `assessResultQuality` equals the reference definition — `0` for an
empty result set, the neutral `1/2` when no query terms of length greater
than two survive stop-word removal, otherwise the arithmetic mean over all
results of `max 0 (min 1 (hitRatio + 0.3·phraseMatches) −
0.2·patternMatches)` — and the returned value always lies in `[0, 1]`. -/
theorem assess_quality_matches_reference
    (results : List SearchResult) (q : String) :
    assessResultQuality results q = refAssessQuality results q ∧
    0 ≤ assessResultQuality results q ∧ assessResultQuality results q ≤ 1 :=
  ⟨assess_eq_ref results q, assess_nonneg results q, assess_le_one results q⟩

/- ## SearchEngine.search — the orchestrator (search-engine.js lines 13-100) -/

/-- The environment-derived configuration read at the top of `search`
(lines 21-23): `ENABLE_RELEVANCE_CHECKING`, `RELEVANCE_THRESHOLD`
(default `0.3`), `FORCE_MULTI_ENGINE_SEARCH`. -/
structure SearchCfg where
  enableQualityCheck : Bool
  qualityThreshold : ℚ
  forceMultiEngine : Bool
deriving DecidableEq, Repr

/-- The default configuration when no environment override is set. -/
def defaultSearchCfg : SearchCfg := ⟨true, 3 / 10, false⟩

/-- What one engine attempt (`approach.method(...)`) produced: a thrown
error with its message, or a parsed result list. -/
inductive AttemptOutcome
  | err (msg : String)
  | ok (results : List SearchResult)
deriving DecidableEq, Repr

structure SearchReturn where
  results : List SearchResult
  engine : String
deriving DecidableEq, Repr

/-- Side effects the loop performs that the claims talk about. -/
inductive SearchEffect
  | attemptStart (name : String)
  | poolCloseAll
deriving DecidableEq, Repr

/-- The error-message classification of `handleBrowserError` (lines
1020-1022): the messages that indicate a closed or dead browser session
and trigger `browserPool.closeAll()`. -/
def sessionClosedError (msg : String) : Bool :=
  strContains msg "Target page, context or browser has been closed" ||
  strContains msg "Browser has been closed" ||
  strContains msg "Session has been closed"

/-- The score an attempt's non-empty result list receives (line 45):
`assessResultQuality` when quality checking is enabled, else `1.0`. -/
def attemptScore (cfg : SearchCfg) (query : String)
    (results : List SearchResult) : ℚ :=
  if cfg.enableQualityCheck then assessResultQuality results query else 1

/-- The engine-attempt loop of `search` (lines 35-86), one equation per
iteration.  State: the `bestResults`/`bestEngine`/`bestQuality` triple
(initially `([], "None", 0)`, lines 32-34).  The list argument carries the
pending attempts with their outcomes; `rest.isEmpty` is exactly
`i === approaches.length - 1`.  When the loop finishes without an early
return it falls through to `return { results: [], engine: 'None' }`
(line 86).  The effect trace records each attempt start and each pool
teardown performed by `handleBrowserError`. -/
def searchGoAux (cfg : SearchCfg) (query : String) :
    List SearchResult × String × ℚ → List (String × AttemptOutcome) →
    SearchReturn × List SearchEffect
  | _, [] => (⟨[], "None"⟩, [])
  | (bR, bE, bQ), (name, outcome) :: rest =>
    match outcome with
    | .err msg =>
      let r := searchGoAux cfg query (bR, bE, bQ) rest
      (r.1, .attemptStart name ::
        ((if sessionClosedError msg then [.poolCloseAll] else []) ++ r.2))
    | .ok results =>
      if results.isEmpty then
        let r := searchGoAux cfg query (bR, bE, bQ) rest
        (r.1, .attemptStart name :: r.2)
      else
        let s := attemptScore cfg query results
        let best' := if s > bQ then (results, name, s) else (bR, bE, bQ)
        if s ≥ 4 / 5 ∧ ¬cfg.forceMultiEngine then
          (⟨results, name⟩, [.attemptStart name])
        else if s ≥ cfg.qualityThreshold ∧ name ≠ "Browser Bing" ∧
            ¬cfg.forceMultiEngine then
          (⟨results, name⟩, [.attemptStart name])
        else if rest.isEmpty ∧
            (best'.2.2 ≥ cfg.qualityThreshold ∨ ¬cfg.enableQualityCheck) then
          (⟨best'.1, best'.2.1⟩, [.attemptStart name])
        else if rest.isEmpty ∧ ¬best'.1.isEmpty then
          (⟨best'.1, best'.2.1⟩, [.attemptStart name])
        else
          let r := searchGoAux cfg query best' rest
          (r.1, .attemptStart name :: r.2)

/-- `SearchEngine.search` given the per-engine attempt outcomes, in the
order of the `approaches` list (Browser Bing, Browser Brave, Axios
DuckDuckGo). -/
def searchModel (cfg : SearchCfg) (query : String)
    (attempts : List (String × AttemptOutcome)) :
    SearchReturn × List SearchEffect :=
  searchGoAux cfg query ([], "None", 0) attempts

/- ## C1: the final fallback -/

def c1Result : SearchResult :=
  ⟨"quantum item", "https://example.org/x", "lorem ipsum", "", "", 0,
   "2024-01-01T00:00:00.000Z", .success⟩

def c1Attempts : List (String × AttemptOutcome) :=
  [("Browser Bing", .ok [c1Result]),
   ("Browser Brave", .err "net timeout"),
   ("Axios DuckDuckGo", .err "DuckDuckGo search failed")]

/-- C1 counterexample: the first engine parses one result scoring `1/4`
(positive, below the `0.3` threshold, so it is retained as best-so-far),
and the remaining engines raise errors.  The claim says the search then
returns the best available non-empty set as a degraded-quality outcome,
but the code's best-set fallback lives inside the last engine's
`results.length > 0` branch, so the search returns the empty result set
tagged with engine `"None"` although an engine attempt produced a
non-empty set. -/
theorem search_none_despite_nonempty_cex :
    (searchModel defaultSearchCfg "quantum widgets flibber gadgets"
        c1Attempts).1 = ⟨[], "None"⟩ ∧
    attemptScore defaultSearchCfg "quantum widgets flibber gadgets"
        [c1Result] = 1 / 4 ∧
    ([c1Result] : List SearchResult) ≠ [] := by
  refine ⟨by with_unfolding_all decide, by with_unfolding_all decide, by with_unfolding_all decide⟩


lemma attemptScore_nonneg (cfg : SearchCfg) (q : String)
    (rs : List SearchResult) : 0 ≤ attemptScore cfg q rs := by
  unfold attemptScore
  split
  · exact assess_nonneg rs q
  · norm_num

lemma searchGoAux_last_nonempty (cfg : SearchCfg) (query name : String)
    (results : List SearchResult)
    (hs : 0 < attemptScore cfg query results) (hne : results ≠ []) :
    ∀ (attempts : List (String × AttemptOutcome)) (bR : List SearchResult)
      (bE : String) (bQ : ℚ), 0 ≤ bQ → (0 < bQ → bR ≠ []) →
      (searchGoAux cfg query (bR, bE, bQ)
        (attempts ++ [(name, .ok results)])).1.results ≠ [] := by
  have hre : results.isEmpty = false := by
    cases results with
    | nil => exact absurd rfl hne
    | cons a l => rfl
  intro attempts
  induction attempts with
  | nil =>
    intro bR bE bQ hbQ hinv
    by_cases hgt : attemptScore cfg query results > bQ
    · simp only [List.nil_append, searchGoAux, hre, Bool.false_eq_true,
        if_false, if_pos hgt]
      split_ifs with h1 h2 h3 h4
      · exact hne
      · exact hne
      · exact hne
      · exact hne
      · exfalso
        apply h4
        refine ⟨rfl, ?_⟩
        simp [hre]
    · simp only [List.nil_append, searchGoAux, hre, Bool.false_eq_true,
        if_false, if_neg hgt]
      have hbQpos : 0 < bQ := lt_of_lt_of_le hs (not_lt.mp hgt)
      have hbR : bR ≠ [] := hinv hbQpos
      have hbRe : bR.isEmpty = false := by
        cases bR with
        | nil => exact absurd rfl hbR
        | cons a l => rfl
      split_ifs with h1 h2 h3 h4
      · exact hne
      · exact hne
      · exact hbR
      · exact hbR
      · exfalso
        apply h4
        refine ⟨rfl, ?_⟩
        simp [hbRe]
  | cons a rest ih =>
    intro bR bE bQ hbQ hinv
    obtain ⟨n, outcome⟩ := a
    cases outcome with
    | err msg =>
      simp only [List.cons_append, searchGoAux]
      exact ih bR bE bQ hbQ hinv
    | ok rs =>
      cases hrs : rs.isEmpty with
      | true =>
        simp only [List.cons_append, searchGoAux, hrs, if_true]
        exact ih bR bE bQ hbQ hinv
      | false =>
        have hrest : (rest ++ [(name, AttemptOutcome.ok results)]).isEmpty
            = false := by
          cases rest <;> rfl
        have hrsne : rs ≠ [] := by
          intro h
          rw [h] at hrs
          simp at hrs
        by_cases hgt : attemptScore cfg query rs > bQ
        · simp only [List.cons_append, searchGoAux, List.append_eq, hrs,
            Bool.false_eq_true, if_false, if_pos hgt, hrest, false_and,
            and_false]
          split_ifs with h1 h2
          · exact hrsne
          · exact hrsne
          · exact ih rs n (attemptScore cfg query rs)
              (attemptScore_nonneg cfg query rs) (fun _ => hrsne)
        · simp only [List.cons_append, searchGoAux, List.append_eq, hrs,
            Bool.false_eq_true, if_false, if_neg hgt, hrest, false_and,
            and_false]
          split_ifs with h1 h2
          · exact hrsne
          · exact hrsne
          · exact ih bR bE bQ hbQ hinv

/-- C1 (amended): the no-empty-"None" guarantee holds only when the LAST
engine's attempt itself parses at least one result with a positive
effective score (in particular whenever scoring is disabled, or the set's
quality score is positive): then the search never returns the empty result
set tagged `"None"` — it returns either an early-returned set or the best
retained non-empty set.  When the last engine returns zero results or
raises an error, the loop falls through to `{results: [], engine: 'None'}`
even if an earlier engine produced a non-empty set (see the
counterexample). -/
theorem search_last_engine_nonempty_returns_results
    (cfg : SearchCfg) (query : String)
    (attempts : List (String × AttemptOutcome)) (name : String)
    (results : List SearchResult)
    (hs : 0 < attemptScore cfg query results) (hne : results ≠ []) :
    (searchModel cfg query
      (attempts ++ [(name, .ok results)])).1.results ≠ [] :=
  searchGoAux_last_nonempty cfg query name results hs hne attempts [] "None" 0
    le_rfl (fun h => absurd h (lt_irrefl 0))

/-- A result scoring `1/2` against the query `"quantum widgets"` (one of
two keywords matched, no phrase, no penalty). -/
def sampleHalfResult : SearchResult :=
  ⟨"quantum things", "https://example.org/y", "lorem ipsum", "", "", 0,
   "2024-01-01T00:00:00.000Z", .success⟩

/-- Witness for `search_last_engine_nonempty_returns_results`: a single
(hence last) DuckDuckGo attempt with one result scoring `1/2 > 0`. -/
theorem search_last_engine_nonempty_returns_results_witness :
    (0 < attemptScore defaultSearchCfg "quantum widgets" [sampleHalfResult] ∧
      ([sampleHalfResult] : List SearchResult) ≠ []) ∧
    (searchModel defaultSearchCfg "quantum widgets"
        ([] ++ [("Axios DuckDuckGo", .ok [sampleHalfResult])])).1.results ≠ [] :=
  ⟨⟨by with_unfolding_all decide, by with_unfolding_all decide⟩,
   search_last_engine_nonempty_returns_results defaultSearchCfg
     "quantum widgets" [] "Axios DuckDuckGo" [sampleHalfResult] (by with_unfolding_all decide)
     (by with_unfolding_all decide)⟩


/- ## C6: the per-attempt decision rules -/

def c6Cfg : SearchCfg := ⟨true, 3 / 10, true⟩

def c6Attempts : List (String × AttemptOutcome) :=
  [("Browser Brave", .ok [sampleHalfResult]),
   ("Axios DuckDuckGo", .ok ([] : List SearchResult))]

/-- C6 counterexample: with the multi-engine-forcing override set, the
second engine (Browser Brave, not the first-priority engine) parses a set
scoring `1/2`, at least the configured acceptance threshold `3/10`.  The
claim says those results are returned immediately; the code's
acceptance-threshold early return additionally requires the override to be
unset, so the search continues (and here ends with the empty `"None"`
set instead of Brave's results). -/
theorem search_step_force_multi_engine_cex :
    attemptScore c6Cfg "quantum widgets" [sampleHalfResult] = 1 / 2 ∧
    ((1 : ℚ) / 2 ≥ c6Cfg.qualityThreshold) ∧
    ("Browser Brave" : String) ≠ "Browser Bing" ∧
    c6Cfg.forceMultiEngine = true ∧
    (searchModel c6Cfg "quantum widgets" c6Attempts).1 = ⟨[], "None"⟩ :=
  ⟨by with_unfolding_all decide, by with_unfolding_all decide, by with_unfolding_all decide, by with_unfolding_all decide, by with_unfolding_all decide⟩


/-- C6 (amended): for an engine attempt that parses at least one result,
with score `s = attemptScore`: (1) if `s ≥ 0.8` and the
multi-engine-forcing override is not set, that engine's results are
returned immediately; (2) if `s` is at least the acceptance threshold, the
engine is not the first-priority engine (`"Browser Bing"`), and — the
amendment — the override is not set, the results are returned immediately;
(3) otherwise, on a non-final attempt, the set is retained as best-so-far
exactly when its score exceeds the previous best, and the search continues
with the next engine. -/
theorem search_attempt_decision_rules
    (cfg : SearchCfg) (query name : String) (bR : List SearchResult)
    (bE : String) (bQ : ℚ) (results : List SearchResult)
    (rest : List (String × AttemptOutcome)) (hne : results ≠ []) :
    (attemptScore cfg query results ≥ 4 / 5 → cfg.forceMultiEngine = false →
      (searchGoAux cfg query (bR, bE, bQ) ((name, .ok results) :: rest)).1
        = ⟨results, name⟩) ∧
    (attemptScore cfg query results ≥ cfg.qualityThreshold →
      name ≠ "Browser Bing" → cfg.forceMultiEngine = false →
      (searchGoAux cfg query (bR, bE, bQ) ((name, .ok results) :: rest)).1
        = ⟨results, name⟩) ∧
    (¬(attemptScore cfg query results ≥ 4 / 5 ∧
        cfg.forceMultiEngine = false) →
      ¬(attemptScore cfg query results ≥ cfg.qualityThreshold ∧
        name ≠ "Browser Bing" ∧ cfg.forceMultiEngine = false) →
      rest ≠ [] →
      (searchGoAux cfg query (bR, bE, bQ) ((name, .ok results) :: rest)).1
        = (searchGoAux cfg query
            (if attemptScore cfg query results > bQ then
              (results, name, attemptScore cfg query results)
            else (bR, bE, bQ)) rest).1) := by
  have hre : results.isEmpty = false := by
    cases results with
    | nil => exact absurd rfl hne
    | cons a l => rfl
  refine ⟨?_, ?_, ?_⟩
  · intro hs hforce
    simp only [searchGoAux, hre, Bool.false_eq_true, if_false]
    rw [if_pos ⟨hs, by simp [hforce]⟩]
  · intro hs hname hforce
    simp only [searchGoAux, hre, Bool.false_eq_true, if_false]
    by_cases hex : attemptScore cfg query results ≥ 4 / 5
    · rw [if_pos ⟨hex, by simp [hforce]⟩]
    · rw [if_neg (by simp [hex]), if_pos ⟨hs, hname, by simp [hforce]⟩]
  · intro h1 h2 hrest
    have hre2 : rest.isEmpty = false := by
      cases rest with
      | nil => exact absurd rfl hrest
      | cons a l => rfl
    simp only [searchGoAux, hre, hre2, Bool.false_eq_true, if_false,
      false_and, and_false]
    rw [if_neg (by simpa using h1), if_neg (by simpa using h2)]

def c6LowResult : SearchResult := c1Result

/-- A result scoring `1` against the query `"quantum widgets"` (both
keywords and the bigram phrase matched, no penalty). -/
def sampleFullResult : SearchResult :=
  ⟨"quantum widgets guide", "https://example.org/z", "lorem ipsum", "", "",
   0, "2024-01-01T00:00:00.000Z", .success⟩

/-- Witness for `search_attempt_decision_rules`; each branch is
instantiated at a concrete attempt satisfying its hypotheses. -/
theorem search_attempt_decision_rules_witness :
    (attemptScore defaultSearchCfg "quantum widgets" [sampleFullResult]
        ≥ 4 / 5 ∧
      (searchGoAux defaultSearchCfg "quantum widgets" ([], "None", 0)
        [("Browser Brave", .ok [sampleFullResult])]).1
        = ⟨[sampleFullResult], "Browser Brave"⟩) ∧
    (attemptScore defaultSearchCfg "quantum widgets" [sampleHalfResult]
        ≥ defaultSearchCfg.qualityThreshold ∧
      (searchGoAux defaultSearchCfg "quantum widgets" ([], "None", 0)
        [("Axios DuckDuckGo", .ok [sampleHalfResult])]).1
        = ⟨[sampleHalfResult], "Axios DuckDuckGo"⟩) ∧
    (searchGoAux defaultSearchCfg "quantum widgets flibber gadgets"
        ([], "None", 0)
        [("Browser Bing", .ok [c6LowResult]), ("Browser Brave", .err "e")]).1
      = (searchGoAux defaultSearchCfg "quantum widgets flibber gadgets"
          (if attemptScore defaultSearchCfg "quantum widgets flibber gadgets"
              [c6LowResult] > 0 then
            ([c6LowResult], "Browser Bing",
              attemptScore defaultSearchCfg "quantum widgets flibber gadgets"
                [c6LowResult])
          else ([], "None", 0)) [("Browser Brave", .err "e")]).1 :=
  ⟨⟨by with_unfolding_all decide,
    (search_attempt_decision_rules defaultSearchCfg "quantum widgets"
      "Browser Brave" [] "None" 0 [sampleFullResult] [] (by with_unfolding_all decide)).1
      (by with_unfolding_all decide) rfl⟩,
   ⟨by with_unfolding_all decide,
    (search_attempt_decision_rules defaultSearchCfg "quantum widgets"
      "Axios DuckDuckGo" [] "None" 0 [sampleHalfResult] [] (by with_unfolding_all decide)).2.1
      (by with_unfolding_all decide) (by with_unfolding_all decide) rfl⟩,
   (search_attempt_decision_rules defaultSearchCfg
     "quantum widgets flibber gadgets" "Browser Bing" [] "None" 0
     [c6LowResult] [("Browser Brave", .err "e")] (by with_unfolding_all decide)).2.2
     (by with_unfolding_all decide) (by with_unfolding_all decide) (by with_unfolding_all decide)⟩


/- ## C7: error containment and pool teardown -/

/-- C7: an engine attempt raising an error is contained at that engine —
the returned value of the search equals the run over the remaining
engines, with the best-so-far state untouched (the failure is never fatal
to the overall search) — and when the error message indicates a closed or
dead browser session (`sessionClosedError`), `handleBrowserError` tears
down the entire browser pool (`closeAll`) before the next attempt starts
in the effect trace; for any other message no teardown happens. -/
theorem search_error_containment_and_teardown
    (cfg : SearchCfg) (query name msg : String) (bR : List SearchResult)
    (bE : String) (bQ : ℚ) (rest : List (String × AttemptOutcome)) :
    (searchGoAux cfg query (bR, bE, bQ) ((name, .err msg) :: rest)).1
      = (searchGoAux cfg query (bR, bE, bQ) rest).1 ∧
    (sessionClosedError msg = true →
      (searchGoAux cfg query (bR, bE, bQ) ((name, .err msg) :: rest)).2
        = .attemptStart name :: .poolCloseAll ::
            (searchGoAux cfg query (bR, bE, bQ) rest).2) ∧
    (sessionClosedError msg = false →
      (searchGoAux cfg query (bR, bE, bQ) ((name, .err msg) :: rest)).2
        = .attemptStart name ::
            (searchGoAux cfg query (bR, bE, bQ) rest).2) := by
  refine ⟨rfl, fun h => ?_, fun h => ?_⟩
  · simp [searchGoAux, h]
  · simp [searchGoAux, h]

/-- Witness for `search_error_containment_and_teardown` at a
closed-session error message and at an unrelated message. -/
theorem search_error_containment_and_teardown_witness :
    (sessionClosedError "Browser has been closed" = true ∧
      (searchGoAux defaultSearchCfg "q" ([], "None", 0)
        [("Browser Bing", .err "Browser has been closed"),
         ("Browser Brave", .ok ([] : List SearchResult))]).2
        = .attemptStart "Browser Bing" :: .poolCloseAll ::
            (searchGoAux defaultSearchCfg "q" ([], "None", 0)
              [("Browser Brave", .ok ([] : List SearchResult))]).2) ∧
    (sessionClosedError "net timeout" = false ∧
      (searchGoAux defaultSearchCfg "q" ([], "None", 0)
        [("Browser Bing", .err "net timeout"),
         ("Browser Brave", .ok ([] : List SearchResult))]).2
        = .attemptStart "Browser Bing" ::
            (searchGoAux defaultSearchCfg "q" ([], "None", 0)
              [("Browser Brave", .ok ([] : List SearchResult))]).2) ∧
    (searchGoAux defaultSearchCfg "q" ([], "None", 0)
        [("Browser Bing", .err "Browser has been closed"),
         ("Browser Brave", .ok ([] : List SearchResult))]).1
      = (searchGoAux defaultSearchCfg "q" ([], "None", 0)
          [("Browser Brave", .ok ([] : List SearchResult))]).1 :=
  ⟨⟨by decide,
    (search_error_containment_and_teardown defaultSearchCfg "q"
      "Browser Bing" "Browser has been closed" [] "None" 0
      [("Browser Brave", .ok ([] : List SearchResult))]).2.1 (by decide)⟩,
   ⟨by decide,
    (search_error_containment_and_teardown defaultSearchCfg "q"
      "Browser Bing" "net timeout" [] "None" 0
      [("Browser Brave", .ok ([] : List SearchResult))]).2.2 (by decide)⟩,
   (search_error_containment_and_teardown defaultSearchCfg "q"
     "Browser Bing" "Browser has been closed" [] "None" 0
     [("Browser Brave", .ok ([] : List SearchResult))]).1⟩

/- ## BrowserPool (src/dist/browser-pool.js) -/

structure PoolCfg where
  maxBrowsers : Nat
  browserTypes : List String
deriving DecidableEq, Repr

/-- Mutable pool state: the `browsers` Map (modelled as its
insertion-ordered entry list) and the rotation index. -/
structure PoolState where
  browsers : List (String × Nat)
  currentBrowserIndex : Nat
deriving DecidableEq, Repr

def poolInit : PoolState := ⟨[], 0⟩

/-- JS `Map.prototype.get`. -/
def mapLookup (m : List (String × Nat)) (k : String) : Option Nat :=
  (m.find? (fun p => p.1 == k)).map (fun p => p.2)

/-- JS `Map.prototype.set`: updating an existing key keeps its insertion
position; a new key is appended at the tail. -/
def mapSet (m : List (String × Nat)) (k : String) (v : Nat) :
    List (String × Nat) :=
  if m.any (fun p => p.1 == k) then
    m.map (fun p => if p.1 == k then (k, v) else p)
  else m ++ [(k, v)]

/-- JS `Map.prototype.delete`. -/
def mapDelete (m : List (String × Nat)) (k : String) : List (String × Nat) :=
  m.filter (fun p => !(p.1 == k))

/-- The cleanup after an insertion (browser-pool.js lines 86-97): when the
map has grown beyond `maxBrowsers`, close and drop the entry produced
first by the map's iterator, i.e. the least-recently-inserted one. -/
def poolEvict (maxB : Nat) (m : List (String × Nat)) : List (String × Nat) :=
  if m.length > maxB then
    match m.head? with
    | some oldest => mapDelete m oldest.1
    | none => m
  else m

/-- What the environment did when `getBrowser` touched a cached browser
(health check) and when it launched a new one (`some id` names the fresh
browser process, `none` means the launch threw). -/
inductive BrowserHealth
  | healthy
  | notConnected
  | checkFailed
deriving DecidableEq, Repr

structure GetBrowserCall where
  health : BrowserHealth
  launch : Option Nat
deriving DecidableEq, Repr

/-- The launch-and-cache path (lines 49-98): on a successful launch the
browser is stored under its type and the pool is trimmed; a thrown launch
leaves the pool untouched and propagates (modelled by `none`). -/
def poolLaunch (cfg : PoolCfg) (st : PoolState) (ty : String)
    (launch : Option Nat) : PoolState × Option Nat :=
  match launch with
  | none => (st, none)
  | some id =>
    ({ st with browsers := poolEvict cfg.maxBrowsers (mapSet st.browsers ty id) },
     some id)

/-- `BrowserPool.getBrowser` (browser-pool.js lines 18-104): rotate the
browser type, return a cached healthy instance, drop the cached instance
when its health check throws (`checkFailed`; an `isConnected() === false`
result merely falls through to the launch without deleting), then launch
and cache. -/
def getBrowser (cfg : PoolCfg) (st : PoolState) (call : GetBrowserCall) :
    PoolState × Option Nat :=
  let ty := cfg.browserTypes.getD
    (st.currentBrowserIndex % cfg.browserTypes.length) ""
  let st1 := { st with currentBrowserIndex := st.currentBrowserIndex + 1 }
  match mapLookup st1.browsers ty with
  | some b =>
    match call.health with
    | .healthy => (st1, some b)
    | .notConnected => poolLaunch cfg st1 ty call.launch
    | .checkFailed =>
      poolLaunch cfg { st1 with browsers := mapDelete st1.browsers ty } ty
        call.launch
  | none => poolLaunch cfg st1 ty call.launch

inductive PoolEvent
  | get (call : GetBrowserCall)
  | closeAll
deriving DecidableEq, Repr

def poolStep (cfg : PoolCfg) (st : PoolState) : PoolEvent → PoolState
  | .get call => (getBrowser cfg st call).1
  | .closeAll => { st with browsers := [] }

def poolRun (cfg : PoolCfg) (st : PoolState) : List PoolEvent → PoolState
  | [] => st
  | e :: es => poolRun cfg (poolStep cfg st e) es

/-- The pool invariant: distinct cached browser types, and at most
`maxB` cached entries. -/
def poolInv (maxB : Nat) (st : PoolState) : Prop :=
  (st.browsers.map Prod.fst).Nodup ∧ st.browsers.length ≤ maxB

/- ## BrowserPool lemmas -/

lemma update_keys (m : List (String × Nat)) (k : String) (v : Nat) :
    (m.map (fun p => if p.1 == k then (k, v) else p)).map Prod.fst
      = m.map Prod.fst := by
  induction m with
  | nil => rfl
  | cons p t ih =>
    simp only [List.map_cons, ih, List.cons.injEq, and_true]
    by_cases hp : p.1 == k
    · simp only [if_pos hp]
      exact (eq_of_beq hp).symm
    · simp [hp]

lemma mapSet_keys_nodup (m : List (String × Nat)) (k : String) (v : Nat)
    (h : (m.map Prod.fst).Nodup) : ((mapSet m k v).map Prod.fst).Nodup := by
  unfold mapSet
  split
  · rw [update_keys]; exact h
  · rename_i hany
    have hk : k ∉ m.map Prod.fst := by
      intro hmem
      apply hany
      obtain ⟨p, hp, hke⟩ := List.mem_map.mp hmem
      exact List.any_eq_true.mpr ⟨p, hp, by rw [hke]; exact beq_self_eq_true k⟩
    simp only [List.map_append, List.map_cons, List.map_nil]
    exact List.Nodup.append h (List.nodup_singleton k)
      (fun a ha hb => by
        simp only [List.mem_singleton] at hb
        exact hk (hb ▸ ha))

lemma mapSet_length_le (m : List (String × Nat)) (k : String) (v : Nat) :
    (mapSet m k v).length ≤ m.length + 1 := by
  unfold mapSet
  split <;> simp

lemma mapDelete_keys_nodup (m : List (String × Nat)) (k : String)
    (h : (m.map Prod.fst).Nodup) : ((mapDelete m k).map Prod.fst).Nodup :=
  h.sublist ((List.filter_sublist m).map Prod.fst)

lemma mapDelete_length_le (m : List (String × Nat)) (k : String) :
    (mapDelete m k).length ≤ m.length := List.length_filter_le _ m

lemma mapDelete_head (k : String) (v : Nat) (t : List (String × Nat))
    (h : k ∉ t.map Prod.fst) : mapDelete ((k, v) :: t) k = t := by
  unfold mapDelete
  rw [List.filter_cons]
  simp only [beq_self_eq_true, Bool.not_true, Bool.false_eq_true, if_false]
  apply List.filter_eq_self.mpr
  intro p hp
  simp only [Bool.not_eq_true']
  refine beq_eq_false_iff_ne.mpr ?_
  intro he
  exact h (he ▸ List.mem_map_of_mem Prod.fst hp)

lemma poolEvict_tail (maxB : Nat) (m : List (String × Nat))
    (hn : (m.map Prod.fst).Nodup) (hl : m.length > maxB) :
    poolEvict maxB m = m.tail := by
  unfold poolEvict
  rw [if_pos hl]
  cases m with
  | nil => rfl
  | cons p t =>
    obtain ⟨k, v⟩ := p
    have hk : k ∉ t.map Prod.fst := by
      simp only [List.map_cons, List.nodup_cons] at hn
      exact hn.1
    simpa using mapDelete_head k v t hk

lemma poolEvict_len (maxB : Nat) (m : List (String × Nat))
    (hn : (m.map Prod.fst).Nodup) (h : m.length ≤ maxB + 1) :
    (poolEvict maxB m).length ≤ maxB := by
  by_cases hl : m.length > maxB
  · rw [poolEvict_tail maxB m hn hl]
    cases m with
    | nil => simp
    | cons p t => simp only [List.tail_cons]; simp at h; omega
  · unfold poolEvict
    rw [if_neg hl]
    omega

lemma poolEvict_nodup (maxB : Nat) (m : List (String × Nat))
    (hn : (m.map Prod.fst).Nodup) :
    ((poolEvict maxB m).map Prod.fst).Nodup := by
  unfold poolEvict
  split
  · split
    · exact mapDelete_keys_nodup _ _ hn
    · exact hn
  · exact hn

lemma poolLaunch_inv (cfg : PoolCfg) (st : PoolState) (ty : String)
    (launch : Option Nat) (h : poolInv cfg.maxBrowsers st) :
    poolInv cfg.maxBrowsers (poolLaunch cfg st ty launch).1 := by
  cases launch with
  | none => exact h
  | some id =>
    refine ⟨poolEvict_nodup _ _ (mapSet_keys_nodup _ _ _ h.1), ?_⟩
    exact poolEvict_len _ _ (mapSet_keys_nodup _ _ _ h.1)
      (le_trans (mapSet_length_le _ _ _) (by have := h.2; omega))

lemma getBrowser_inv (cfg : PoolCfg) (st : PoolState) (call : GetBrowserCall)
    (h : poolInv cfg.maxBrowsers st) :
    poolInv cfg.maxBrowsers (getBrowser cfg st call).1 := by
  unfold getBrowser
  split
  all_goals dsimp only
  all_goals try split
  all_goals
    first
      | exact h
      | (apply poolLaunch_inv
         exact h)
      | (apply poolLaunch_inv
         exact ⟨mapDelete_keys_nodup _ _ h.1,
           le_trans (mapDelete_length_le _ _) h.2⟩)

lemma poolRun_inv (cfg : PoolCfg) (events : List PoolEvent) :
    ∀ st, poolInv cfg.maxBrowsers st →
      poolInv cfg.maxBrowsers (poolRun cfg st events) := by
  induction events with
  | nil => intro st h; exact h
  | cons e es ih =>
    intro st h
    apply ih
    cases e with
    | get call => exact getBrowser_inv cfg st call h
    | closeAll => exact ⟨List.nodup_nil, Nat.zero_le _⟩

/-- C8: after every sequence of `getBrowser` calls (and `closeAll`s)
starting from the empty pool, the number of distinct cached browser
entries is at most `maxBrowsers`; and whenever the insertion performed by
`getBrowser` makes the entry count exceed that maximum, the entry that is
closed and removed is the head of the insertion-ordered entry list — the
least-recently-inserted one (insertion-order FIFO: `Map.set` keeps an
updated key at its original position and appends new keys at the tail, and
eviction drops the first iterator entry). -/
theorem browser_pool_size_bound_and_fifo_eviction :
    (∀ (cfg : PoolCfg) (events : List PoolEvent),
      (poolRun cfg poolInit events).browsers.length ≤ cfg.maxBrowsers) ∧
    (∀ (maxB : Nat) (m : List (String × Nat)) (k : String) (v : Nat),
      (m.map Prod.fst).Nodup → (mapSet m k v).length > maxB →
      poolEvict maxB (mapSet m k v) = (mapSet m k v).tail) := by
  constructor
  · intro cfg events
    exact (poolRun_inv cfg events poolInit
      ⟨List.nodup_nil, Nat.zero_le _⟩).2
  · intro maxB m k v hn hl
    exact poolEvict_tail maxB (mapSet m k v) (mapSet_keys_nodup m k v hn) hl

/-- Witness for `browser_pool_size_bound_and_fifo_eviction`: a pool of
maximum size one holding `chromium`; inserting `firefox` exceeds the
maximum and evicts `chromium`, the least-recently-inserted entry. -/
theorem browser_pool_size_bound_and_fifo_eviction_witness :
    (poolRun ⟨1, ["chromium", "firefox"]⟩ poolInit
        [.get ⟨.healthy, some 1⟩, .get ⟨.healthy, some 2⟩]).browsers.length
      ≤ 1 ∧
    (([("chromium", 1)] : List (String × Nat)).map Prod.fst).Nodup ∧
    (mapSet [("chromium", 1)] "firefox" 2).length > 1 ∧
    poolEvict 1 (mapSet [("chromium", 1)] "firefox" 2)
      = (mapSet [("chromium", 1)] "firefox" 2).tail :=
  ⟨browser_pool_size_bound_and_fifo_eviction.1 ⟨1, ["chromium", "firefox"]⟩
     [.get ⟨.healthy, some 1⟩, .get ⟨.healthy, some 2⟩],
   by decide, by decide,
   browser_pool_size_bound_and_fifo_eviction.2 1 [("chromium", 1)]
     "firefox" 2 (by decide) (by decide)⟩

/- ## Engine result parsing (search-engine.js) -/

/-- The `SearchResult` literal every parser pushes (lines 543-552,
574-583, 660-669, 757-766, 792-801): content fields blank, zero word
count, `fetchStatus: 'success'`. -/
def mkParsedResult (ts title url desc : String) : SearchResult :=
  ⟨title, url, desc, "", "", 0, ts, .success⟩

/-- Abstraction of one candidate card in `parseSearchResults`: the
outcome of each cheerio selector query the code performs on the element
(`none` when the selector family matched nothing): the first matching
title selector's text, the `closest('a')` href of that title, the first
`a[href]` in the card, and the first matching snippet selector's text. -/
structure GoogleElem where
  titleText : Option String
  closestLink : Option (Option String)
  anyHref : Option String
  snippetText : Option String
deriving DecidableEq, Repr

/-- Candidate resolution and acceptance, lines 504-557.  `closestLink`
distinguishes "no enclosing `a`" (`none`, which falls back to the first
`a[href]` in the card) from "an enclosing `a` without an `href`"
(`some none`, which leaves the URL empty, `attr('href') || ''`). -/
def googleAccept (ts : String) (e : GoogleElem) : Option SearchResult :=
  let title := match e.titleText with | some t => strTrim t | none => ""
  let url := match e.titleText with
    | some _ =>
      (match e.closestLink with
       | some hOpt => (match hOpt with | some h => h | none => "")
       | none => (match e.anyHref with | some h => h | none => ""))
    | none => ""
  let snippet := match e.snippetText with | some sn => strTrim sn | none => ""
  if title ≠ "" ∧ url ≠ "" ∧ isValidSearchUrl url then
    some (mkParsedResult ts title (cleanGoogleUrl url)
      (if snippet = "" then "No description available" else snippet))
  else none

def googleElemsLoop (ts : String) (maxR : Nat) :
    List GoogleElem → List SearchResult → List SearchResult
  | [], acc => acc
  | e :: rest, acc =>
    if acc.length ≥ maxR then acc
    else
      match googleAccept ts e with
      | some r => googleElemsLoop ts maxR rest (acc ++ [r])
      | none => googleElemsLoop ts maxR rest acc

/-- Lines 493-559: selector families in priority order, stopping after
the first family that accepted at least one result. -/
def googleFamiliesLoop (ts : String) (maxR : Nat) :
    List (List GoogleElem) → List SearchResult
  | [] => []
  | f :: rest =>
    let r := googleElemsLoop ts maxR f []
    if r.isEmpty then googleFamiliesLoop ts maxR rest else r

/-- An `h3` element for the aggressive fallback pass (lines 562-588): its
text and, when `closest('a')` matched, that link's optional `href`. -/
structure H3Elem where
  text : String
  link : Option (Option String)
deriving DecidableEq, Repr

def googleH3Loop (ts : String) (maxR : Nat) :
    List H3Elem → List SearchResult → List SearchResult
  | [], acc => acc
  | e :: rest, acc =>
    if acc.length ≥ maxR then acc
    else
      let title := strTrim e.text
      match e.link with
      | some href =>
        if title ≠ "" then
          let url := match href with | some u => u | none => ""
          if isValidSearchUrl url then
            googleH3Loop ts maxR rest
              (acc ++ [mkParsedResult ts title (cleanGoogleUrl url)
                "No description available"])
          else googleH3Loop ts maxR rest acc
        else googleH3Loop ts maxR rest acc
      | none => googleH3Loop ts maxR rest acc

/-- `parseSearchResults` (search-engine.js lines 463-590). -/
def parseSearchResults (ts : String) (families : List (List GoogleElem))
    (h3s : List H3Elem) (maxR : Nat) : List SearchResult :=
  let rs := googleFamiliesLoop ts maxR families
  if rs.isEmpty then googleH3Loop ts maxR h3s [] else rs

/-- Abstraction of one Brave result card: the `(text, href)` of each
matching title selector in selector order, the card's raw text content,
and the texts of the matching snippet selectors in order. -/
structure BraveElem where
  titleMatches : List (String × Option String)
  textContent : String
  snippetMatches : List String
deriving DecidableEq, Repr

/-- The Brave title-selector loop (lines 621-633): every matching
selector overwrites title and url; stop at the first giving a non-empty
title and an `http`-prefixed non-empty url. -/
def braveTitleLoop :
    List (String × Option String) → String × String → String × String
  | [], tu => tu
  | (t, h) :: rest, _ =>
    let title := strTrim t
    let url := match h with | some u => u | none => ""
    if title ≠ "" ∧ url ≠ "" ∧ strStarts url "http" then (title, url)
    else braveTitleLoop rest (title, url)

/-- Lines 634-642: fallback title from the first non-blank line of the
card's text content. -/
def braveFallbackTitle (textContent : String) : String :=
  match (splitOnChar '\n' textContent.toList).filter
      (fun l => strTrim (String.mk l) ≠ "") with
  | [] => ""
  | l :: _ => strTrim (String.mk l)

def braveAccept (ts : String) (e : BraveElem) : Option SearchResult :=
  let tu := braveTitleLoop e.titleMatches ("", "")
  let title := if tu.1 = "" then braveFallbackTitle e.textContent else tu.1
  let snippet := match e.snippetMatches with
    | [] => ""
    | sn :: _ => strTrim sn
  if title ≠ "" ∧ tu.2 ≠ "" ∧ isValidSearchUrl tu.2 then
    some (mkParsedResult ts title (cleanBraveUrl tu.2)
      (if snippet = "" then "No description available" else snippet))
  else none

def braveElemsLoop (ts : String) (maxR : Nat) :
    List BraveElem → List SearchResult → Bool → List SearchResult × Bool
  | [], acc, found => (acc, found)
  | e :: rest, acc, found =>
    if acc.length ≥ maxR then (acc, found)
    else
      match braveAccept ts e with
      | some r => braveElemsLoop ts maxR rest (acc ++ [r]) true
      | none => braveElemsLoop ts maxR rest acc found

/-- Lines 602-673: the Brave selector families, with the
`foundResults && results.length >= maxResults` break. -/
def braveFamiliesLoop (ts : String) (maxR : Nat) :
    List (List BraveElem) → List SearchResult → Bool → List SearchResult
  | [], acc, _ => acc
  | f :: rest, acc, found =>
    if found ∧ acc.length ≥ maxR then acc
    else
      let r := braveElemsLoop ts maxR f acc found
      braveFamiliesLoop ts maxR rest r.1 r.2

/-- `parseBraveResults` (search-engine.js lines 591-676). -/
def parseBraveResults (ts : String) (families : List (List BraveElem))
    (maxR : Nat) : List SearchResult :=
  braveFamiliesLoop ts maxR families [] false

/-- Abstraction of one Bing result card: the `(text, href)` of the first
matching title selector, and the texts of the matching snippet selectors
in selector order. -/
structure BingElem where
  titleMatch : Option (String × Option String)
  snippetCandidates : List String
deriving DecidableEq, Repr

/-- The metadata filter regex `^\d+\s*(min|sec|hour|day|week|month|year)`
with the `i` flag (line 748). -/
def bingMetaSnippet (s : String) : Bool :=
  let l := (strLower s).toList
  if (l.takeWhile (fun c => c.isDigit)).isEmpty then false
  else
    let rest := (l.dropWhile (fun c => c.isDigit)).dropWhile jsIsSpace
    ["min", "sec", "hour", "day", "week", "month", "year"].any
      (fun k => listLeads k.toList rest)

/-- The Bing snippet-selector loop (lines 742-754): take the first
matching selector whose trimmed text is longer than 20 characters and is
not a metadata snippet. -/
def bingSnippetLoop : List String → String
  | [] => ""
  | c :: rest =>
    let cand := strTrim c
    if cand.length > 20 ∧ ¬bingMetaSnippet cand then cand
    else bingSnippetLoop rest

def bingAccept (ts : String) (e : BingElem) : Option SearchResult :=
  let tu := match e.titleMatch with
    | some (t, h) => (strTrim t, match h with | some u => u | none => "")
    | none => ("", "")
  let snippet := bingSnippetLoop e.snippetCandidates
  if tu.1 ≠ "" ∧ tu.2 ≠ "" ∧ isValidSearchUrl tu.2 then
    some (mkParsedResult ts tu.1 (cleanBingUrl tu.2)
      (if snippet = "" then "No description available" else snippet))
  else none

def bingElemsLoop (ts : String) (maxR : Nat) :
    List BingElem → List SearchResult → Bool → List SearchResult × Bool
  | [], acc, found => (acc, found)
  | e :: rest, acc, found =>
    if acc.length ≥ maxR then (acc, found)
    else
      match bingAccept ts e with
      | some r => bingElemsLoop ts maxR rest (acc ++ [r]) true
      | none => bingElemsLoop ts maxR rest acc found

/-- Lines 701-770: the Bing selector families, with the
`foundResults && results.length >= maxResults` break (an empty family is
skipped, which the fold does anyway). -/
def bingFamiliesLoop (ts : String) (maxR : Nat) :
    List (List BingElem) → List SearchResult → Bool → List SearchResult
  | [], acc, _ => acc
  | f :: rest, acc, found =>
    if found ∧ acc.length ≥ maxR then acc
    else
      let r := bingElemsLoop ts maxR f acc found
      bingFamiliesLoop ts maxR rest r.1 r.2

/-- `parseBingResults` (search-engine.js lines 677-773). -/
def parseBingResults (ts : String) (families : List (List BingElem))
    (maxR : Nat) : List SearchResult :=
  bingFamiliesLoop ts maxR families [] false

/-- Abstraction of one DuckDuckGo `.result` element: the
`.result__title a` text, its optional `href` attribute, and the
`.result__snippet` text. -/
structure DdgElem where
  titleText : String
  href : Option String
  snippetText : String
deriving DecidableEq, Repr

def ddgLoop (ts : String) (maxR : Nat) :
    List DdgElem → List SearchResult → List SearchResult
  | [], acc => acc
  | e :: rest, acc =>
    if acc.length ≥ maxR then acc
    else
      let title := strTrim e.titleText
      let snippet := strTrim e.snippetText
      match e.href with
      | some u =>
        if title ≠ "" ∧ u ≠ "" then
          ddgLoop ts maxR rest
            (acc ++ [mkParsedResult ts title (cleanDuckDuckGoUrl u)
              (if snippet = "" then "No description available" else snippet)])
        else ddgLoop ts maxR rest acc
      | none => ddgLoop ts maxR rest acc

/-- `parseDuckDuckGoResults` (search-engine.js lines 774-806); note there
is no `isValidSearchUrl` check on this path. -/
def parseDuckDuckGoResults (ts : String) (elems : List DdgElem)
    (maxR : Nat) : List SearchResult :=
  ddgLoop ts maxR elems []

/- ## C10: freshly parsed results -/

/-- The fields of C10: blank content, blank preview, zero word count,
`fetchStatus = 'success'`. -/
def freshFields (r : SearchResult) : Bool :=
  r.fullContent == "" && r.contentPreview == "" && r.wordCount == 0 &&
  (match r.fetchStatus with | .success => true | _ => false)

lemma freshFields_mk (ts title url desc : String) :
    freshFields (mkParsedResult ts title url desc) = true := rfl

lemma all_append_fresh (acc : List SearchResult) (r : SearchResult)
    (ha : acc.all freshFields = true) (hr : freshFields r = true) :
    (acc ++ [r]).all freshFields = true := by
  simp only [List.all_append, ha, List.all_cons, hr, List.all_nil,
    Bool.and_self, Bool.true_and]

lemma googleAccept_fresh (ts : String) (e : GoogleElem) (r : SearchResult)
    (h : googleAccept ts e = some r) : freshFields r = true := by
  unfold googleAccept at h
  dsimp only at h
  repeat' split at h
  all_goals first
    | (injection h with h'; subst h'; rfl)
    | cases h

lemma braveAccept_fresh (ts : String) (e : BraveElem) (r : SearchResult)
    (h : braveAccept ts e = some r) : freshFields r = true := by
  unfold braveAccept at h
  dsimp only at h
  repeat' split at h
  all_goals first
    | (injection h with h'; subst h'; rfl)
    | cases h

lemma bingAccept_fresh (ts : String) (e : BingElem) (r : SearchResult)
    (h : bingAccept ts e = some r) : freshFields r = true := by
  unfold bingAccept at h
  dsimp only at h
  repeat' split at h
  all_goals first
    | (injection h with h'; subst h'; rfl)
    | cases h

lemma googleElemsLoop_fresh (ts : String) (maxR : Nat) (es : List GoogleElem) :
    ∀ acc, acc.all freshFields = true →
      (googleElemsLoop ts maxR es acc).all freshFields = true := by
  induction es with
  | nil => intro acc h; exact h
  | cons e rest ih =>
    intro acc h
    rw [googleElemsLoop]
    by_cases hl : acc.length ≥ maxR
    · rw [if_pos hl]; exact h
    · rw [if_neg hl]
      cases hacc : googleAccept ts e with
      | some r =>
        simp only [hacc]
        exact ih _ (all_append_fresh _ _ h (googleAccept_fresh ts e r hacc))
      | none =>
        simp only [hacc]
        exact ih _ h

lemma googleFamiliesLoop_fresh (ts : String) (maxR : Nat)
    (families : List (List GoogleElem)) :
    (googleFamiliesLoop ts maxR families).all freshFields = true := by
  induction families with
  | nil => rfl
  | cons f rest ih =>
    rw [googleFamiliesLoop]
    split
    · exact ih
    · exact googleElemsLoop_fresh ts maxR f [] rfl

lemma googleH3Loop_fresh (ts : String) (maxR : Nat) (es : List H3Elem) :
    ∀ acc, acc.all freshFields = true →
      (googleH3Loop ts maxR es acc).all freshFields = true := by
  induction es with
  | nil => intro acc h; exact h
  | cons e rest ih =>
    intro acc h
    rw [googleH3Loop]
    dsimp only
    by_cases hl : acc.length ≥ maxR
    · rw [if_pos hl]; exact h
    · rw [if_neg hl]
      cases hlink : e.link with
      | some href =>
        simp only [hlink]
        split_ifs
        all_goals first
          | exact ih _ (all_append_fresh _ _ h (freshFields_mk _ _ _ _))
          | exact ih _ h
      | none =>
        simp only [hlink]
        exact ih _ h

lemma braveElemsLoop_fresh (ts : String) (maxR : Nat) (es : List BraveElem) :
    ∀ acc found, acc.all freshFields = true →
      (braveElemsLoop ts maxR es acc found).1.all freshFields = true := by
  induction es with
  | nil => intro acc found h; exact h
  | cons e rest ih =>
    intro acc found h
    rw [braveElemsLoop]
    by_cases hl : acc.length ≥ maxR
    · rw [if_pos hl]; exact h
    · rw [if_neg hl]
      cases hacc : braveAccept ts e with
      | some r =>
        simp only [hacc]
        exact ih _ _ (all_append_fresh _ _ h (braveAccept_fresh ts e r hacc))
      | none =>
        simp only [hacc]
        exact ih _ _ h

lemma braveFamiliesLoop_fresh (ts : String) (maxR : Nat)
    (families : List (List BraveElem)) :
    ∀ acc found, acc.all freshFields = true →
      (braveFamiliesLoop ts maxR families acc found).all freshFields
        = true := by
  induction families with
  | nil => intro acc found h; exact h
  | cons f rest ih =>
    intro acc found h
    rw [braveFamiliesLoop]
    split
    · exact h
    · exact ih _ _ (braveElemsLoop_fresh ts maxR f acc found h)

lemma bingElemsLoop_fresh (ts : String) (maxR : Nat) (es : List BingElem) :
    ∀ acc found, acc.all freshFields = true →
      (bingElemsLoop ts maxR es acc found).1.all freshFields = true := by
  induction es with
  | nil => intro acc found h; exact h
  | cons e rest ih =>
    intro acc found h
    rw [bingElemsLoop]
    by_cases hl : acc.length ≥ maxR
    · rw [if_pos hl]; exact h
    · rw [if_neg hl]
      cases hacc : bingAccept ts e with
      | some r =>
        simp only [hacc]
        exact ih _ _ (all_append_fresh _ _ h (bingAccept_fresh ts e r hacc))
      | none =>
        simp only [hacc]
        exact ih _ _ h

lemma bingFamiliesLoop_fresh (ts : String) (maxR : Nat)
    (families : List (List BingElem)) :
    ∀ acc found, acc.all freshFields = true →
      (bingFamiliesLoop ts maxR families acc found).all freshFields
        = true := by
  induction families with
  | nil => intro acc found h; exact h
  | cons f rest ih =>
    intro acc found h
    rw [bingFamiliesLoop]
    split
    · exact h
    · exact ih _ _ (bingElemsLoop_fresh ts maxR f acc found h)

lemma ddgLoop_fresh (ts : String) (maxR : Nat) (es : List DdgElem) :
    ∀ acc, acc.all freshFields = true →
      (ddgLoop ts maxR es acc).all freshFields = true := by
  induction es with
  | nil => intro acc h; exact h
  | cons e rest ih =>
    intro acc h
    rw [ddgLoop]
    dsimp only
    by_cases hl : acc.length ≥ maxR
    · rw [if_pos hl]; exact h
    · rw [if_neg hl]
      cases hhref : e.href with
      | some u =>
        simp only [hhref]
        split_ifs
        all_goals first
          | exact ih _ (all_append_fresh _ _ h (freshFields_mk _ _ _ _))
          | exact ih _ h
      | none =>
        simp only [hhref]
        exact ih _ h

/-- C10: every `SearchResult` produced by any engine parsing routine
(`parseSearchResults`, `parseBraveResults`, `parseBingResults`,
`parseDuckDuckGoResults`), for every markup input, is created with
`fullContent = ""`, `contentPreview = ""`, `wordCount = 0` and
`fetchStatus = 'success'`, even though no page fetch has occurred yet. -/
theorem parsed_results_fresh_content_fields (ts : String) (maxR : Nat)
    (gF : List (List GoogleElem)) (h3s : List H3Elem)
    (bF : List (List BraveElem)) (biF : List (List BingElem))
    (dE : List DdgElem) :
    (parseSearchResults ts gF h3s maxR).all freshFields = true ∧
    (parseBraveResults ts bF maxR).all freshFields = true ∧
    (parseBingResults ts biF maxR).all freshFields = true ∧
    (parseDuckDuckGoResults ts dE maxR).all freshFields = true := by
  refine ⟨?_, ?_, ?_, ?_⟩
  · unfold parseSearchResults
    dsimp only
    split
    · exact googleH3Loop_fresh ts maxR h3s [] rfl
    · exact googleFamiliesLoop_fresh ts maxR gF
  · exact braveFamiliesLoop_fresh ts maxR bF [] false rfl
  · exact bingFamiliesLoop_fresh ts maxR biF [] false rfl
  · exact ddgLoop_fresh ts maxR dE [] rfl

/-- C2 counterexample: the DuckDuckGo parsing routine performs no URL
validity check and `cleanDuckDuckGoUrl` passes a relative raw href
through unchanged, so a parsed result's `url` can be a relative,
non-scheme-qualified address. -/
theorem parse_ddg_relative_url_cex :
    (parseDuckDuckGoResults "2024-01-01T00:00:00.000Z"
        [⟨"Example Site", some "/relative/path", "a snippet"⟩] 5).map
        SearchResult.url
      = ["/relative/path"] ∧
    isSchemeQualified "/relative/path" = false :=
  ⟨by decide, by decide⟩
